import Mathlib

/-!
Shallow embedding of the ONNX-to-IR graph importer
(`Graph` / `Subgraph` from the frontend's `graph.cpp`).

The importer's own code (constructor phases, unsupported-operator
verification, friendly naming, dangling-parameter pruning, subgraph input
lifting, result naming) is translated function by function.  External
collaborators that are not part of the reviewed sources (the tensor
decoder `Tensor::get_ng_constant`, the operator registry inside `Model`,
`GraphCache`'s map, `ValueInfo::get_ng_node`, the error-message prefix
helper) are modelled from the spec, as marked in their doc comments.
-/

set_option autoImplicit false

namespace OnnxImport

/-- Element types are abstracted as tags; the importer never interprets
them, it only copies them around. -/
abbrev ElemType := String

/-- Constant payload: element type, (static) shape and flattened data.
Data entries are integers; the importer only ever compares payloads for
equality and builds the zero scalar `{0}`. -/
structure ConstData where
  elemType : ElemType
  shape : List Nat
  data : List Int
  deriving DecidableEq, Repr

/-- Modelled from the spec: the outcome of `Tensor::get_ng_constant`
(the tensor/initializer decoder, an external collaborator, §4.1).  It
either produces a constant, raises `error::invalid_external_data`, or
raises some other `ngraph_error`. -/
inductive DecodeResult where
  | ok (c : ConstData)
  | invalidExternalData
  | otherError (msg : String)
  deriving DecidableEq, Repr

/-- `ONNX_NAMESPACE::TensorProto` as the importer sees it: an optional
name (`has_name`/`name`), the element type reported by
`Tensor::get_ng_type`, and the decoder outcome for its payload. -/
structure TensorProto where
  name : Option String
  elemType : ElemType
  decode : DecodeResult
  deriving DecidableEq, Repr

/-- `ONNX_NAMESPACE::ValueInfoProto`: a declared graph input or output
with its element type and partial shape (`none` = dynamic dimension). -/
structure ValueInfoProto where
  name : String
  elemType : ElemType
  shape : List (Option Nat)
  deriving DecidableEq, Repr

instance : Inhabited ValueInfoProto := ⟨⟨"", "", []⟩⟩

/-- `ONNX_NAMESPACE::NodeProto`: one operation instance.  Nested
subgraph bodies are handled by driving `Subgraph` conversion separately,
so they are not stored on the node. -/
structure NodeProto where
  name : String
  domain : String
  opType : String
  input : List String
  output : List String
  deriving DecidableEq, Repr

/-- `ONNX_NAMESPACE::GraphProto`: the decoded model body. -/
structure GraphProto where
  initializer : List TensorProto
  input : List ValueInfoProto
  node : List NodeProto
  output : List ValueInfoProto
  deriving DecidableEq, Repr

/-- A `(producing node, output port)` pair — `Output<ngraph::Node>`. -/
structure OutputRef where
  node : Nat
  port : Nat
  deriving DecidableEq, Repr

instance : Inhabited OutputRef := ⟨⟨0, 0⟩⟩

/-- What kind of IR node an allocated node is; only the distinctions the
importer itself branches on are kept (`Constant`, `Parameter`, `Result`,
`NullNode`, `MultiSubGraphOp`, `ONNXSubgraphFrameworkNode`, anything
else). -/
inductive NodeKind where
  | constant (c : ConstData)
  | parameter
  | opNode (opType : String)
  | multiSubGraphOp
  | frameworkNode
  | nullNode
  | result
  deriving DecidableEq, Repr

/-- Per-output-port tensor information: element type, partial shape, the
set of bound tensor names (`get_tensor().set_names`/`add_names`), and
the deprecated single tensor name (`get_tensor().set_name`). -/
structure OutInfo where
  elemType : ElemType
  pshape : List (Option Nat)
  names : List String
  legacyName : String
  deriving DecidableEq, Repr

instance : Inhabited OutInfo := ⟨⟨"", [], [], ""⟩⟩

/-- One allocated IR node: kind, friendly name, input edges (source
outputs, in input-port order) and per-output info. -/
structure IRNode where
  kind : NodeKind
  friendlyName : String
  inputs : List OutputRef
  outs : List OutInfo
  deriving DecidableEq, Repr

instance : Inhabited IRNode := ⟨⟨.nullNode, "", [], []⟩⟩

/-- The heap of IR nodes created so far; a node's identity is its index.
All graphs and subgraphs of one conversion share it, as the C++ nodes
share one heap. -/
structure Env where
  nodes : List IRNode
  deriving DecidableEq, Repr

namespace Env

/-- Allocate a node, returning its id. -/
def addNode (e : Env) (n : IRNode) : Env × Nat :=
  (⟨e.nodes ++ [n]⟩, e.nodes.length)

def getNode (e : Env) (i : Nat) : IRNode :=
  e.nodes.getD i default

/-- `node->set_friendly_name`. -/
def setFriendly (e : Env) (i : Nat) (nm : String) : Env :=
  ⟨e.nodes.set i { e.getNode i with friendlyName := nm }⟩

/-- Update the tensor info of one output port. -/
def modifyOut (e : Env) (ref : OutputRef) (f : OutInfo → OutInfo) : Env :=
  let nd := e.getNode ref.node
  ⟨e.nodes.set ref.node { nd with outs := nd.outs.set ref.port (f (nd.outs.getD ref.port default)) }⟩

/-- `output.get_tensor().set_names(...)`. -/
def setTensorNames (e : Env) (ref : OutputRef) (nms : List String) : Env :=
  e.modifyOut ref fun o => { o with names := nms }

/-- `output.get_tensor().add_names(...)`. -/
def addTensorNames (e : Env) (ref : OutputRef) (nms : List String) : Env :=
  e.modifyOut ref fun o => { o with names := o.names ++ nms }

/-- The deprecated `output.get_tensor().set_name(...)`. -/
def setLegacyName (e : Env) (ref : OutputRef) (nm : String) : Env :=
  e.modifyOut ref fun o => { o with legacyName := nm }

/-- `input.replace_source_output(...)`: input port `idx` of node `i` now
reads from `src`. -/
def replaceInput (e : Env) (i : Nat) (idx : Nat) (src : OutputRef) : Env :=
  let nd := e.getNode i
  ⟨e.nodes.set i { nd with inputs := nd.inputs.set idx src }⟩

def outInfo (e : Env) (ref : OutputRef) : OutInfo :=
  (e.getNode ref.node).outs.getD ref.port default

/-- `output.get_element_type()`. -/
def outElemType (e : Env) (ref : OutputRef) : ElemType :=
  (e.outInfo ref).elemType

/-- `output.get_partial_shape()`. -/
def outPShape (e : Env) (ref : OutputRef) : List (Option Nat) :=
  (e.outInfo ref).pshape

/-- `ngraph::op::is_null(output)`: the output belongs to a `NullNode`. -/
def isNull (e : Env) (ref : OutputRef) : Bool :=
  match (e.getNode ref.node).kind with
  | .nullNode => true
  | _ => false

/-- `ngraph::op::is_constant(node)` / `is_type<Constant>(node)`. -/
def isConstantNode (e : Env) (i : Nat) : Bool :=
  match (e.getNode i).kind with
  | .constant _ => true
  | _ => false

/-- `output.get_target_inputs().size() == 0`: no input edge of any node
reads from `ref`. -/
def hasNoConsumers (e : Env) (ref : OutputRef) : Bool :=
  e.nodes.all fun nd => !(nd.inputs.contains ref)

end Env

/-- Modelled from the spec: `GraphCache` (§4.3, not among the reviewed
sources) is a map from tensor name to IR output with last-write-wins
insertion; we represent it as an association list where the most recent
insertion is found first. -/
abbrev Cache := List (String × OutputRef)

/-- `GraphCache::emplace_node` (last-write-wins, §3). -/
def cacheEmplace (c : Cache) (nm : String) (ref : OutputRef) : Cache :=
  (nm, ref) :: c

/-- `GraphCache::contains`. -/
def cacheContains (c : Cache) (nm : String) : Bool :=
  c.any fun p => p.1 == nm

/-- `GraphCache::get_node`, as an `Option` (the C++ version throws when
the name is absent; every call site below is guarded by `contains`). -/
def cacheLookup (c : Cache) (nm : String) : Option OutputRef :=
  (c.find? fun p => p.1 == nm).map Prod.snd

/-- `GraphCache::remove_node`. -/
def cacheRemove (c : Cache) (nm : String) : Cache :=
  c.filter fun p => p.1 ≠ nm

/-- Modelled from the spec: the operator registry (§4.2, `Model` /
`OperatorsBridge`, not among the reviewed sources).  `baseAvailable`
answers resolvability without any extra domain enabled; `lateAvailable`
answers it for operators that become resolvable once their domain has
been enabled by `enable_opset_domain`. -/
structure AvailabilityModel where
  baseAvailable : String → String → Bool
  lateAvailable : String → String → Bool

/-- Modelled from the spec: `Model::is_operator_available` for a given
set of lazily enabled domains. -/
def isOperatorAvailable (am : AvailabilityModel) (enabled : List String) (n : NodeProto) : Bool :=
  am.baseAvailable n.domain n.opType ||
    (enabled.contains n.domain && am.lateAvailable n.domain n.opType)

/-- Modelled from the spec: `Model::enable_opset_domain` registers a
previously unknown domain (idempotently). -/
def enableOpsetDomain (enabled : List String) (d : String) : List String :=
  if enabled.contains d then enabled else enabled ++ [d]

/-- Every way a conversion can abort: the initializer decoder's fatal
external-data failure, the combined unsupported-operators check, an
`ngraph_error` (also used for re-wrapped node failures), an
`OnnxNodeValidationFailure`, an unrecognized exception re-raised as-is,
a `GraphCache::get_node` miss, and `std::vector::at` out of range. -/
inductive GraphError where
  | invalidExternalData
  | unsupportedOps (msg : String)
  | ngraphError (msg : String)
  | validationFailure (msg : String)
  | unknownException
  | cacheMiss (name : String)
  | outOfRange
  deriving DecidableEq, Repr

/-- The mutable state of one `Graph`: the shared IR node heap, its
`GraphCache`, its ordered parameter list (node ids), the initializer
names warned about (the importer's `NGRAPH_WARN` events, each identified
by the initializer it names), and the `Model`'s enabled-domain set. -/
structure GraphSt where
  env : Env
  cache : Cache
  parameters : List Nat
  warnings : List String
  enabledDomains : List String
  deriving DecidableEq, Repr

/-- One iteration of the initializer loop in `Graph::Graph` (lines
104–127): skip unnamed initializers; decode; on
`invalid_external_data` rethrow; on any other `ngraph_error` warn and
substitute `Constant::create(type, Shape{}, {0})`; set the constant's
tensor names to `{name}` and store it in the cache. -/
def processInitializer (st : GraphSt) (t : TensorProto) : Except GraphError GraphSt :=
  match t.name with
  | none => .ok st
  | some nm =>
    match t.decode with
    | .invalidExternalData => .error .invalidExternalData
    | .ok c =>
      let (env1, cid) := st.env.addNode
        ⟨.constant c, "", [], [⟨c.elemType, c.shape.map some, [], ""⟩]⟩
      let env2 := env1.setTensorNames ⟨cid, 0⟩ [nm]
      .ok { st with env := env2, cache := cacheEmplace st.cache nm ⟨cid, 0⟩ }
    | .otherError _ =>
      let zero : ConstData := ⟨t.elemType, [], [0]⟩
      let (env1, cid) := st.env.addNode
        ⟨.constant zero, "", [], [⟨t.elemType, [], [], ""⟩]⟩
      let env2 := env1.setTensorNames ⟨cid, 0⟩ [nm]
      .ok { st with env := env2,
                    cache := cacheEmplace st.cache nm ⟨cid, 0⟩,
                    warnings := st.warnings ++ [nm] }

/-- The whole initializer loop. -/
def processInitializers (st : GraphSt) : List TensorProto → Except GraphError GraphSt
  | [] => .ok st
  | t :: rest => do
    let st1 ← processInitializer st t
    processInitializers st1 rest

/-- One iteration of the input loop in `Graph::Graph` (lines 130–139):
inputs shadowed by an initializer are skipped; otherwise
`ValueInfo::get_ng_node` creates a `Parameter` (modelled from the spec:
`value_info.hpp` is not among the reviewed sources; the parameter takes
the declared type/shape, its friendly name and tensor names are the
input's name) which is appended to the parameter list and cached. -/
def processInput (st : GraphSt) (v : ValueInfoProto) : GraphSt :=
  if cacheContains st.cache v.name then st
  else
    let (env1, pid) := st.env.addNode
      ⟨.parameter, v.name, [], [⟨v.elemType, v.shape, [v.name], ""⟩]⟩
    { st with env := env1,
              cache := cacheEmplace st.cache v.name ⟨pid, 0⟩,
              parameters := st.parameters ++ [pid] }

/-- The whole input loop. -/
def processInputs (st : GraphSt) : List ValueInfoProto → GraphSt
  | [] => st
  | v :: rest => processInputs (processInput st v) rest

/-- `detail::get_op_domain_and_name` (lines 76–79). -/
def opDomainAndName (n : NodeProto) : String :=
  (if n.domain = "" then "" else n.domain ++ ".") ++ n.opType

/-- Lexicographic order on character lists, by code point — the
`std::less<std::string>` key order of `std::map`. -/
def charListLt : List Char → List Char → Bool
  | _, [] => false
  | [], _ :: _ => true
  | a :: as, b :: bs =>
    if a.toNat < b.toNat then true
    else if b.toNat < a.toNat then false
    else charListLt as bs

/-- Lexicographic order on strings. -/
def strLt (a b : String) : Bool := charListLt a.data b.data

/-- Insertion into the `std::map` `unknown_operators`: keys are kept
sorted and `emplace` leaves an existing key's entry untouched. -/
def mapInsert (k : String) (v : NodeProto) : List (String × NodeProto) → List (String × NodeProto)
  | [] => [(k, v)]
  | (k', v') :: rest =>
    if strLt k k' then (k, v) :: (k', v') :: rest
    else if k = k' then (k', v') :: rest
    else (k', v') :: mapInsert k v rest

/-- The upfront availability scan (lines 144–154): collect each
unavailable node under its `(domain, op_type)` key and, as a side
effect, enable its domain. -/
def scanNodes (am : AvailabilityModel) (enabled : List String) (nodes : List NodeProto) :
    List (String × NodeProto) × List String :=
  nodes.foldl
    (fun acc n =>
      if isOperatorAvailable am acc.2 n then acc
      else (mapInsert (opDomainAndName n) n acc.1, enableOpsetDomain acc.2 n.domain))
    ([], enabled)

/-- The re-verification loop (lines 162–170): erase every entry whose
node has become available. -/
def reverifyUnknown (am : AvailabilityModel) (enabled : List String)
    (m : List (String × NodeProto)) : List (String × NodeProto) :=
  m.filter fun p => !isOperatorAvailable am enabled p.2

/-- `detail::to_string` (lines 51–58): the map's keys, comma-joined. -/
def unknownOpsToString (m : List (String × NodeProto)) : String :=
  String.intercalate ", " (m.map Prod.fst)

/-- The final `NGRAPH_CHECK` (lines 172–174). -/
def verifyOperators (am : AvailabilityModel) (g : GraphProto) (st : GraphSt) :
    Except GraphError GraphSt :=
  let scanned := scanNodes am st.enabledDomains g.node
  let remaining := reverifyUnknown am scanned.2 scanned.1
  if remaining.isEmpty then .ok { st with enabledDomains := scanned.2 }
  else .error (.unsupportedOps
    ("nGraph does not support the following ONNX operations: " ++ unknownOpsToString remaining))

/-- The `Graph::Graph` constructor body (lines 102–175): initializer
materialization, then input binding, then the operator-availability
check. -/
def Graph.construct (am : AvailabilityModel) (enabled0 : List String) (g : GraphProto) :
    Except GraphError GraphSt := do
  let st0 : GraphSt := ⟨⟨[]⟩, [], [], [], enabled0⟩
  let st1 ← processInitializers st0 g.initializer
  let st2 := processInputs st1 g.input
  verifyOperators am g st2

/-- The outcome of invoking a registered conversion function
(`ng_node_factory(onnx_node)`): IR outputs, or one of the three kinds of
exception `Graph::make_ng_nodes` distinguishes. -/
inductive FactoryResult where
  | ok (env : Env) (outs : List OutputRef)
  | validationFailure (msg : String)
  | stdException (msg : String)
  | unknownException

/-- A conversion function obtained from the registry.  It may read the
whole graph state (node input resolution goes through the cache) and
extends the node heap with the IR nodes it builds. -/
abbrev Factory := NodeProto → GraphSt → FactoryResult

/-- Modelled from the spec: `error::detail::get_error_msg_prefix`
(`exceptions.hpp`, not among the reviewed sources) identifies the
failing node by its name, or by domain and op_type when unnamed. -/
def getErrorMsgPrefix (n : NodeProto) : String :=
  if n.name = "" then (if n.domain = "" then "" else n.domain ++ ".") ++ n.opType
  else n.name

/-- `detail::common_node_for_all_outputs` (lines 81–89): do all outputs
come out of the single node that produces output 0?  (The C++ version
calls `outputs.at(0)` and so requires a nonempty vector; theorems about
this function carry that hypothesis.) -/
def commonNodeForAllOutputs (outs : List OutputRef) : Bool :=
  match outs with
  | [] => true
  | r :: rest => rest.all fun r' => r'.node == r.node

/-- The body of the naming loop in `Graph::set_friendly_names` (lines
342–371), iterating over the (ng output, declared output name) pairs;
zipping reproduces both the `i >= onnx_node.get_outputs_size()` break
and the loop bound `ng_subgraph_outputs.size()`. -/
def setNamesLoop (nodeName : String) (common : Bool) (env : Env) :
    List (OutputRef × String) → Env
  | [] => env
  | (ref, onm) :: rest =>
    let env1 :=
      if nodeName = "" then env.setFriendly ref.node onm
      else
        let env' :=
          if common then env.setFriendly ref.node nodeName
          else env.setFriendly ref.node (nodeName ++ "_" ++ onm)
        env'.setLegacyName ref onm
    let env2 := if env1.isNull ref then env1 else env1.setTensorNames ref [onm]
    setNamesLoop nodeName common env2 rest

/-- `Graph::set_friendly_names` (lines 331–372). -/
def setFriendlyNames (n : NodeProto) (outs : List OutputRef) (env : Env) : Env :=
  if n.opType = "Identity" then
    (outs.zip n.output).foldl (fun e p => e.addTensorNames p.1 [p.2]) env
  else
    setNamesLoop n.name (commonNodeForAllOutputs outs) env (outs.zip n.output)

/-- The cache-filling loop at the end of `Graph::make_ng_nodes` (lines
323–326): each declared output name is mapped to the corresponding
produced output. -/
def emplaceOutputs (c : Cache) (pairs : List (String × OutputRef)) : Cache :=
  pairs.foldl (fun c p => cacheEmplace c p.1 p.2) c

/-- `Graph::make_ng_nodes` (lines 301–329): dispatch to the conversion
function; `OnnxNodeValidationFailure` propagates unchanged; any other
`std::exception` is re-thrown as an `ngraph_error` prefixed with the
node identity; an unrecognized exception is re-raised unchanged (its
log line is `makeNgNodesLog`).  On success the outputs get friendly
names and are cached (`ng_subgraph_outputs.at(i)` throws when the
conversion function produced fewer outputs than declared). -/
def makeNgNodes (factory : Factory) (n : NodeProto) (st : GraphSt) :
    Except GraphError (GraphSt × List OutputRef) :=
  match factory n st with
  | .validationFailure msg => .error (.validationFailure msg)
  | .stdException msg => .error (.ngraphError (getErrorMsgPrefix n ++ ":\n" ++ msg))
  | .unknownException => .error .unknownException
  | .ok env' outs =>
    if n.output.length ≤ outs.length then
      let env2 := setFriendlyNames n outs env'
      let cache2 := emplaceOutputs st.cache (n.output.zip outs)
      .ok ({ st with env := env2, cache := cache2 }, outs)
    else .error .outOfRange

/-- The `NGRAPH_ERR` line of `Graph::make_ng_nodes` (line 317): what is
logged before an unrecognized exception is re-raised. -/
def makeNgNodesLog (factory : Factory) (n : NodeProto) (st : GraphSt) : List String :=
  match factory n st with
  | .unknownException => [getErrorMsgPrefix n ++ "Unhandled exception type. \n"]
  | _ => []

/-- `Graph::convert_to_ngraph_nodes` (lines 177–190), for bodies whose
nodes carry no nested subgraphs (nested bodies are converted by driving
`Subgraph.convert` on them directly). -/
def convertToNgraphNodes (factory : Factory) (st : GraphSt) :
    List NodeProto → Except GraphError GraphSt
  | [] => .ok st
  | n :: rest => do
    let (st1, _) ← makeNgNodes factory n st
    convertToNgraphNodes factory st1 rest

/-- The `any_tensor_name_matches_onnx_output` lambda of
`Graph::remove_dangling_parameters` (lines 193–205). -/
def anyTensorNameMatchesOutput (env : Env) (ref : OutputRef) (outputNames : List String) : Bool :=
  (env.outInfo ref).names.any fun nm => outputNames.any fun onm => onm == nm

/-- The parameter-pruning loop of `Graph::remove_dangling_parameters`
(lines 207–217): a parameter with no consumers whose tensor names miss
every declared output is dropped from the list and removed from the
cache under its friendly name. -/
def removeDanglingAux (outputNames : List String) (env : Env) :
    List Nat → Cache → List Nat × Cache
  | [], c => ([], c)
  | p :: rest, c =>
    if (env.hasNoConsumers ⟨p, 0⟩ &&
        !anyTensorNameMatchesOutput env ⟨p, 0⟩ outputNames) then
      removeDanglingAux outputNames env rest (cacheRemove c (env.getNode p).friendlyName)
    else
      let (ps, c') := removeDanglingAux outputNames env rest c
      (p :: ps, c')

/-- `Graph::remove_dangling_parameters` (lines 192–218). -/
def removeDanglingParameters (g : GraphProto) (st : GraphSt) : GraphSt :=
  let pruned := removeDanglingAux (g.output.map ValueInfoProto.name) st.env st.parameters st.cache
  { st with parameters := pruned.1, cache := pruned.2 }

/-- `Graph::get_ng_outputs` (lines 289–299): resolve every declared
output from the cache (a miss is the `GraphCache::get_node` exception),
skipping null outputs. -/
def getNgOutputs (st : GraphSt) : List ValueInfoProto → Except GraphError (List OutputRef)
  | [] => .ok []
  | o :: rest =>
    match cacheLookup st.cache o.name with
    | none => .error (.cacheMiss o.name)
    | some ref => do
      let rs ← getNgOutputs st rest
      .ok (if st.env.isNull ref then rs else ref :: rs)

/-- The `Result` node the `Function` constructor wraps an output in. -/
def mkResultNode (ref : OutputRef) : IRNode :=
  ⟨.result, "", [ref], [default]⟩

/-- `detail::generate_result_name` (lines 60–64): the ONNX output name,
`"/sink_port_"`, and the index of the source output feeding the result
node's only input. -/
def generateResultName (onnxOutputName : String) (env : Env) (rid : Nat) : String :=
  onnxOutputName ++ "/sink_port_" ++ toString ((env.getNode rid).inputs.getD 0 default).port

/-- The renaming loop of `Graph::create_function` (lines 265–269), over
(result node id, ONNX output name) pairs. -/
def renameResults (env : Env) : List (Nat × String) → Env
  | [] => env
  | (rid, onm) :: rest =>
    renameResults (env.setFriendly rid (generateResultName onm env rid)) rest

/-- The finished IR function: ordered result node ids and the surviving
ordered parameter list. -/
structure IRFunction where
  results : List Nat
  parameters : List Nat
  deriving DecidableEq, Repr

/-- `Graph::create_function` (lines 262–271): wrap each resolved output
in a `Result` node, then rename the i-th result after the model's i-th
declared output. -/
def createFunction (g : GraphProto) (st : GraphSt) : Except GraphError (Env × IRFunction) := do
  let outs ← getNgOutputs st g.output
  let base := st.env.nodes.length
  let rids := (List.range outs.length).map fun i => base + i
  let env1 : Env := ⟨st.env.nodes ++ outs.map mkResultNode⟩
  let env2 := renameResults env1 (rids.zip (g.output.map ValueInfoProto.name))
  .ok (env2, ⟨rids, st.parameters⟩)

/-- `Graph::convert` (lines 220–224) together with the construction of
the `Graph` itself: construct, convert nodes, prune dangling
parameters, create the function. -/
def Graph.convert (am : AvailabilityModel) (factory : Factory) (enabled0 : List String)
    (g : GraphProto) : Except GraphError (GraphSt × IRFunction) := do
  let st ← Graph.construct am enabled0 g
  let st1 ← convertToNgraphNodes factory st g.node
  let st2 := removeDanglingParameters g st1
  let fn ← createFunction g st2
  .ok ({ st2 with env := fn.1 }, fn.2)

/-- The extra state a `Subgraph` carries over a `Graph`: the
parameter→parent-name map and the ordered list of lifted parent
names. -/
structure SubgraphSt where
  g : GraphSt
  parameterToParentNodeMap : List (Nat × String)
  inputsFromParent : List String
  deriving DecidableEq, Repr

/-- `Subgraph::replace_input_from_parent_scope_with_parameter` (lines
396–406): create a parameter copying the parent value's type and
partial shape, rewire the consuming input to it, record it in the map,
the local cache, the parameter list and the lifted-name list. -/
def replaceInputFromParentScopeWithParameter (inName : String) (fromParent : OutputRef)
    (targetNode : Nat) (targetIdx : Nat) (st : SubgraphSt) : SubgraphSt :=
  let et := st.g.env.outElemType fromParent
  let sh := st.g.env.outPShape fromParent
  let (env1, pid) := st.g.env.addNode ⟨.parameter, "", [], [⟨et, sh, [], ""⟩]⟩
  let env2 := env1.replaceInput targetNode targetIdx ⟨pid, 0⟩
  { g := { st.g with env := env2,
                     cache := cacheEmplace st.g.cache inName ⟨pid, 0⟩,
                     parameters := st.g.parameters ++ [pid] },
    parameterToParentNodeMap := st.parameterToParentNodeMap ++ [(pid, inName)],
    inputsFromParent := st.inputsFromParent ++ [inName] }

/-- The explicit-input half of `Subgraph::find_inputs_from_parent`
(lines 411–430): for each input name of the node that resolves in the
parent scope to a non-constant value, rewire, through every cached
output of the node, the consuming node's input at that index to a fresh
local parameter.  The parent scope is its cache (a root `Graph`'s
`is_ng_node_in_cache`/`get_ng_node_from_cache` consult the cache
directly). -/
def explicitInputsPass (parentCache : Cache) (np : NodeProto) (st : SubgraphSt) : SubgraphSt :=
  np.input.enum.foldl
    (fun st p =>
      let inputIndex := p.1
      let inName := p.2
      if cacheContains parentCache inName then
        let fromParent := (cacheLookup parentCache inName).getD default
        if !(st.g.env.isConstantNode fromParent.node) then
          np.output.foldl
            (fun st outName =>
              if cacheContains st.g.cache outName then
                let target := ((cacheLookup st.g.cache outName).getD default).node
                replaceInputFromParentScopeWithParameter inName fromParent target inputIndex st
              else st)
            st
        else st
      else st)
    st

/-- The implicit-input half of `Subgraph::find_inputs_from_parent`
(lines 434–455): for every cached output of the node produced by a
multi-subgraph op or a framework placeholder, lift each already-resolved
non-constant input whose friendly name resolves in the parent scope.
The input list is captured once before the loop, as in the source. -/
def implicitInputsPass (parentCache : Cache) (np : NodeProto) (st : SubgraphSt) : SubgraphSt :=
  np.output.foldl
    (fun st outName =>
      if cacheContains st.g.cache outName then
        let target := ((cacheLookup st.g.cache outName).getD default).node
        match (st.g.env.getNode target).kind with
        | .multiSubGraphOp | .frameworkNode =>
          (st.g.env.getNode target).inputs.enum.foldl
            (fun st q =>
              let i := q.1
              let input := q.2
              if st.g.env.isConstantNode input.node then st
              else
                let inName := (st.g.env.getNode input.node).friendlyName
                if cacheContains parentCache inName then
                  let fromParent := (cacheLookup parentCache inName).getD default
                  replaceInputFromParentScopeWithParameter inName fromParent target i st
                else st)
            st
        | _ => st
      else st)
    st

/-- `Subgraph::find_inputs_from_parent` (lines 408–457). -/
def findInputsFromParent (parentCache : Cache) (g : GraphProto) (st : SubgraphSt) : SubgraphSt :=
  g.node.foldl (fun st np => implicitInputsPass parentCache np (explicitInputsPass parentCache np st)) st

/-- `Subgraph::convert` (lines 459–463): convert the body's nodes, lift
inputs from the parent scope, create the function. -/
def Subgraph.convert (parentCache : Cache) (factory : Factory) (g : GraphProto)
    (st : SubgraphSt) : Except GraphError (SubgraphSt × IRFunction) := do
  let g1 ← convertToNgraphNodes factory st.g g.node
  let st1 := findInputsFromParent parentCache g { st with g := g1 }
  let fn ← createFunction g st1.g
  .ok ({ st1 with g := { st1.g with env := fn.1 } }, fn.2)

/-! ### Basic lemmas about the cache and the node heap -/

theorem cacheContains_emplace_self (c : Cache) (nm : String) (ref : OutputRef) :
    cacheContains (cacheEmplace c nm ref) nm = true := by
  simp [cacheContains, cacheEmplace]

theorem cacheLookup_emplace_self (c : Cache) (nm : String) (ref : OutputRef) :
    cacheLookup (cacheEmplace c nm ref) nm = some ref := by
  simp [cacheLookup, cacheEmplace, List.find?]

theorem cacheLookup_emplace_ne (c : Cache) (nm nm' : String) (ref : OutputRef)
    (h : nm' ≠ nm) : cacheLookup (cacheEmplace c nm' ref) nm = cacheLookup c nm := by
  have hb : (nm' == nm) = false := beq_eq_false_iff_ne.mpr h
  simp [cacheLookup, cacheEmplace, List.find?, hb]

theorem cacheContains_emplace_mono (c : Cache) (nm nm' : String) (ref : OutputRef)
    (h : cacheContains c nm = true) :
    cacheContains (cacheEmplace c nm' ref) nm = true := by
  simp [cacheContains, cacheEmplace] at h ⊢
  exact .inr h

theorem cacheContains_of_lookup {c : Cache} {nm : String} {ref : OutputRef}
    (h : cacheLookup c nm = some ref) : cacheContains c nm = true := by
  unfold cacheLookup at h
  cases hf : List.find? (fun p => p.1 == nm) c with
  | none => rw [hf] at h; simp at h
  | some p =>
    have hmem := List.mem_of_find?_eq_some hf
    have hpred := List.find?_some hf
    simp only [cacheContains, List.any_eq_true]
    exact ⟨p, hmem, hpred⟩

namespace Env

@[simp] theorem length_setFriendly (e : Env) (i : Nat) (nm : String) :
    (e.setFriendly i nm).nodes.length = e.nodes.length := by
  simp [setFriendly]

@[simp] theorem length_modifyOut (e : Env) (ref : OutputRef) (f : OutInfo → OutInfo) :
    (e.modifyOut ref f).nodes.length = e.nodes.length := by
  simp [modifyOut]

@[simp] theorem length_setTensorNames (e : Env) (ref : OutputRef) (nms : List String) :
    (e.setTensorNames ref nms).nodes.length = e.nodes.length := by
  simp [setTensorNames]

@[simp] theorem length_setLegacyName (e : Env) (ref : OutputRef) (nm : String) :
    (e.setLegacyName ref nm).nodes.length = e.nodes.length := by
  simp [setLegacyName]

@[simp] theorem length_replaceInput (e : Env) (i idx : Nat) (src : OutputRef) :
    (e.replaceInput i idx src).nodes.length = e.nodes.length := by
  simp [replaceInput]

@[simp] theorem length_addNode (e : Env) (n : IRNode) :
    ((e.addNode n).1).nodes.length = e.nodes.length + 1 := by
  simp [addNode]

theorem getNode_set_ne (nodes : List IRNode) (i j : Nat) (nd : IRNode) (h : j ≠ i) :
    (Env.mk (nodes.set i nd)).getNode j = (Env.mk nodes).getNode j := by
  simp [getNode, List.getD, List.getElem?_set_ne (Ne.symm h)]

theorem getNode_set_self (nodes : List IRNode) (i : Nat) (nd : IRNode)
    (h : i < nodes.length) :
    (Env.mk (nodes.set i nd)).getNode i = nd := by
  simp [getNode, List.getD, List.getElem?_set_self, h]

theorem getNode_setFriendly_ne (e : Env) (i j : Nat) (nm : String) (h : j ≠ i) :
    (e.setFriendly i nm).getNode j = e.getNode j :=
  getNode_set_ne e.nodes i j _ h

theorem getNode_setFriendly_self (e : Env) (i : Nat) (nm : String) (h : i < e.nodes.length) :
    (e.setFriendly i nm).getNode i = { e.getNode i with friendlyName := nm } :=
  getNode_set_self e.nodes i _ h

theorem getNode_modifyOut_ne (e : Env) (ref : OutputRef) (f : OutInfo → OutInfo) (j : Nat)
    (h : j ≠ ref.node) :
    (e.modifyOut ref f).getNode j = e.getNode j :=
  getNode_set_ne e.nodes ref.node j _ h

theorem getNode_addNode_new (e : Env) (n : IRNode) :
    ((e.addNode n).1).getNode e.nodes.length = n := by
  simp [addNode, getNode, List.getD]

theorem getNode_addNode_old (e : Env) (n : IRNode) (i : Nat) (h : i < e.nodes.length) :
    ((e.addNode n).1).getNode i = e.getNode i := by
  simp [addNode, getNode, List.getD, List.getElem?_append_left h]

end Env

/-! ### C1 — fatal invalid-external-data initializers -/

/-- A registry in which nothing is available. -/
def amTriv : AvailabilityModel := ⟨fun _ _ => false, fun _ _ => false⟩

/-- A conversion function that is never consulted in the scenarios it
is used in. -/
def factoryTriv : Factory := fun _ _ => .unknownException

@[simp] theorem except_bind_error {ε α β : Type} (e : ε) (f : α → Except ε β) :
    (Except.error e >>= f) = Except.error e := rfl

@[simp] theorem except_bind_ok {ε α β : Type} (a : α) (f : α → Except ε β) :
    (Except.ok a >>= f : Except ε β) = f a := rfl

theorem processInitializers_invalid {l : List TensorProto} {t : TensorProto} {nm : String}
    (ht : t ∈ l) (hn : t.name = some nm) (hd : t.decode = .invalidExternalData)
    (st : GraphSt) :
    processInitializers st l = .error .invalidExternalData := by
  induction l generalizing st with
  | nil => cases ht
  | cons a rest ih =>
    rcases List.mem_cons.mp ht with h | h
    · subst h
      simp [processInitializers, processInitializer, hn, hd]
    · cases ha : a.name with
      | none => simpa [processInitializers, processInitializer, ha] using ih h _
      | some anm =>
        cases hda : a.decode with
        | ok c => simpa [processInitializers, processInitializer, ha, hda] using ih h _
        | invalidExternalData => simp [processInitializers, processInitializer, ha, hda]
        | otherError m => simpa [processInitializers, processInitializer, ha, hda] using ih h _

/-- C1 (amended: the initializer must carry a name, since the importer
skips unnamed initializers before ever decoding them): a model whose
initializer list contains a named initializer with an unresolvable
external-data payload makes the whole conversion fail with the
external-data error — no node is converted and no IR function is
returned. -/
theorem convert_fails_on_invalid_external_data
    (am : AvailabilityModel) (factory : Factory) (enabled0 : List String)
    (g : GraphProto) (t : TensorProto) (nm : String)
    (ht : t ∈ g.initializer) (hn : t.name = some nm)
    (hd : t.decode = .invalidExternalData) :
    Graph.convert am factory enabled0 g = .error .invalidExternalData := by
  have h := processInitializers_invalid ht hn hd (⟨⟨[]⟩, [], [], [], enabled0⟩ : GraphSt)
  simp [Graph.convert, Graph.construct, h]

/-- The model used to exercise `convert_fails_on_invalid_external_data`:
one named initializer with an unresolvable external-data payload. -/
def gC1w : GraphProto := ⟨[⟨some "w", "f32", .invalidExternalData⟩], [], [], []⟩

/-- Witness for C1: the fatal propagation at a concrete model. -/
theorem convert_fails_on_invalid_external_data_witness :
    Graph.convert amTriv factoryTriv [] gC1w = .error .invalidExternalData :=
  convert_fails_on_invalid_external_data amTriv factoryTriv [] gC1w
    ⟨some "w", "f32", .invalidExternalData⟩ "w" (by simp [gC1w]) rfl rfl

/-- A model containing an initializer whose payload references
unresolvable external data, but without a name. -/
def gC1cex : GraphProto := ⟨[⟨none, "f32", .invalidExternalData⟩], [], [], []⟩

/-- Counterexample to C1 as stated: `gC1cex` contains an initializer
whose raw payload references external data that cannot be resolved,
yet `Graph` construction does not propagate any failure — conversion
succeeds and an IR function is returned, because the importer skips
initializers that carry no name before decoding them. -/
theorem convert_succeeds_on_unnamed_invalid_external_data :
    Graph.convert amTriv factoryTriv [] gC1cex =
      .ok (⟨⟨[]⟩, [], [], [], []⟩, ⟨[], []⟩) := rfl

/-! ### C8 — initializers are cached before input binding -/

theorem processInitializer_cache_mono {st st' : GraphSt} {t : TensorProto} {nm : String}
    (h : cacheContains st.cache nm = true) (hok : processInitializer st t = .ok st') :
    cacheContains st'.cache nm = true := by
  cases ht : t.name with
  | none =>
    simp [processInitializer, ht] at hok
    exact hok ▸ h
  | some nm' =>
    cases hd : t.decode with
    | ok c =>
      simp [processInitializer, ht, hd] at hok
      rw [← hok]
      exact cacheContains_emplace_mono _ _ _ _ h
    | invalidExternalData => simp [processInitializer, ht, hd] at hok
    | otherError m =>
      simp [processInitializer, ht, hd] at hok
      rw [← hok]
      exact cacheContains_emplace_mono _ _ _ _ h

theorem processInitializers_cache_mono {l : List TensorProto} {st st' : GraphSt} {nm : String}
    (h : cacheContains st.cache nm = true) (hok : processInitializers st l = .ok st') :
    cacheContains st'.cache nm = true := by
  induction l generalizing st with
  | nil =>
    simp [processInitializers] at hok
    exact hok ▸ h
  | cons a rest ih =>
    rw [processInitializers] at hok
    cases hstep : processInitializer st a with
    | error e => rw [hstep] at hok; simp at hok
    | ok st1 =>
      rw [hstep] at hok
      simp at hok
      exact ih (processInitializer_cache_mono h hstep) hok

theorem processInitializers_named_contains {l : List TensorProto} {t : TensorProto}
    {nm : String} {st st' : GraphSt}
    (ht : t ∈ l) (hn : t.name = some nm) (hok : processInitializers st l = .ok st') :
    cacheContains st'.cache nm = true := by
  induction l generalizing st with
  | nil => cases ht
  | cons a rest ih =>
    rw [processInitializers] at hok
    cases hstep : processInitializer st a with
    | error e => rw [hstep] at hok; simp at hok
    | ok st1 =>
      rw [hstep] at hok
      simp at hok
      rcases List.mem_cons.mp ht with rfl | hmem
      · cases hd : t.decode with
        | ok c =>
          have : cacheContains st1.cache nm = true := by
            simp [processInitializer, hn, hd] at hstep
            rw [← hstep]
            exact cacheContains_emplace_self _ _ _
          exact processInitializers_cache_mono this hok
        | invalidExternalData => simp [processInitializer, hn, hd] at hstep
        | otherError m =>
          have : cacheContains st1.cache nm = true := by
            simp [processInitializer, hn, hd] at hstep
            rw [← hstep]
            exact cacheContains_emplace_self _ _ _
          exact processInitializers_cache_mono this hok
      · exact ih hmem hok

/-- C8 (amended: only initializers that carry a name are materialized;
the importer skips unnamed ones): every named initializer is in the
graph cache under its name by the end of the initializer phase — i.e.
in the very cache the input-binding phase starts from, before any input
is examined and before any node is processed (`Graph.construct` is the
composition shown in the last conjunct, and node conversion only runs
after construction); and a declared input whose name is already cached
is skipped without creating any `Parameter`. -/
theorem construct_caches_initializers_before_inputs
    (am : AvailabilityModel) (enabled0 : List String) (g : GraphProto)
    (t : TensorProto) (nm : String) (st1 : GraphSt)
    (ht : t ∈ g.initializer) (hn : t.name = some nm)
    (h1 : processInitializers ⟨⟨[]⟩, [], [], [], enabled0⟩ g.initializer = .ok st1) :
    cacheContains st1.cache nm = true ∧
    (∀ st v, cacheContains st.cache v.name = true → processInput st v = st) ∧
    Graph.construct am enabled0 g = verifyOperators am g (processInputs st1 g.input) := by
  refine ⟨processInitializers_named_contains ht hn h1, ?_, ?_⟩
  · intro st v h
    simp [processInput, h]
  · simp [Graph.construct, h1]

/-- The model used in the C8 witness: one named initializer and one
declared input of the same name (shadowed), plus a second, fresh
input. -/
def gC8w : GraphProto :=
  ⟨[⟨some "w", "f32", .ok ⟨"f32", [2], [7, 8]⟩⟩], [⟨"w", "f32", [some 2]⟩, ⟨"x", "f32", []⟩], [], []⟩

/-- The state `gC8w`'s initializer phase produces. -/
def stC8w : GraphSt :=
  ⟨⟨[⟨.constant ⟨"f32", [2], [7, 8]⟩, "", [], [⟨"f32", [some 2], ["w"], ""⟩]⟩]⟩,
   [("w", ⟨0, 0⟩)], [], [], []⟩

/-- Witness for C8: at `gC8w`, the named initializer is cached before
input binding, and cached names never get a parameter. -/
theorem construct_caches_initializers_before_inputs_witness :
    cacheContains stC8w.cache "w" = true ∧
    (∀ st v, cacheContains st.cache v.name = true → processInput st v = st) ∧
    Graph.construct amTriv [] gC8w = verifyOperators amTriv gC8w (processInputs stC8w gC8w.input) :=
  construct_caches_initializers_before_inputs amTriv [] gC8w
    ⟨some "w", "f32", .ok ⟨"f32", [2], [7, 8]⟩⟩ "w" stC8w (by simp [gC8w]) rfl rfl

/-- A model whose sole initializer carries no name. -/
def gC8cex : GraphProto := ⟨[⟨none, "f32", .ok ⟨"f32", [], [5]⟩⟩], [], [], []⟩

/-- Counterexample to C8 as stated: `gC8cex`'s initializer list is
nonempty, yet construction succeeds with an empty cache — the unnamed
initializer is never materialized into the graph cache (its `name()`
accessor would yield `""`, and `cacheContains _ ""` is `false`). -/
theorem construct_skips_unnamed_initializer :
    Graph.construct amTriv [] gC8cex = .ok ⟨⟨[]⟩, [], [], [], []⟩ ∧
    gC8cex.initializer ≠ [] := ⟨rfl, by simp [gC8cex]⟩

/-! ### C3 / C4 — the unsupported-operator gate -/

theorem processInitializer_enabled {st st' : GraphSt} {t : TensorProto}
    (hok : processInitializer st t = .ok st') :
    st'.enabledDomains = st.enabledDomains := by
  cases ht : t.name with
  | none => simp [processInitializer, ht] at hok; rw [← hok]
  | some nm =>
    cases hd : t.decode with
    | ok c => simp [processInitializer, ht, hd] at hok; rw [← hok]
    | invalidExternalData => simp [processInitializer, ht, hd] at hok
    | otherError m => simp [processInitializer, ht, hd] at hok; rw [← hok]

theorem processInitializers_enabled {l : List TensorProto} {st st' : GraphSt}
    (hok : processInitializers st l = .ok st') :
    st'.enabledDomains = st.enabledDomains := by
  induction l generalizing st with
  | nil => simp [processInitializers] at hok; rw [← hok]
  | cons a rest ih =>
    rw [processInitializers] at hok
    cases hstep : processInitializer st a with
    | error e => rw [hstep] at hok; simp at hok
    | ok st1 =>
      rw [hstep] at hok
      simp at hok
      rw [ih hok, processInitializer_enabled hstep]

theorem processInput_enabled (st : GraphSt) (v : ValueInfoProto) :
    (processInput st v).enabledDomains = st.enabledDomains := by
  unfold processInput
  split <;> rfl

theorem processInputs_enabled (st : GraphSt) (l : List ValueInfoProto) :
    (processInputs st l).enabledDomains = st.enabledDomains := by
  induction l generalizing st with
  | nil => rfl
  | cons v rest ih => rw [processInputs, ih, processInput_enabled]

/-- C3: when, after the enable-domain retries, some operators remain
unresolved, construction fails with exactly one combined diagnostic
that comma-joins every remaining `(domain, op_type)` key, instead of
failing on the first one. -/
theorem construct_reports_all_unsupported_ops
    (am : AvailabilityModel) (enabled0 : List String) (g : GraphProto) (st1 : GraphSt)
    (h1 : processInitializers ⟨⟨[]⟩, [], [], [], enabled0⟩ g.initializer = .ok st1)
    (hne : reverifyUnknown am (scanNodes am enabled0 g.node).2 (scanNodes am enabled0 g.node).1 ≠ []) :
    Graph.construct am enabled0 g = .error (.unsupportedOps
      ("nGraph does not support the following ONNX operations: " ++
        String.intercalate ", "
          ((reverifyUnknown am (scanNodes am enabled0 g.node).2
              (scanNodes am enabled0 g.node).1).map Prod.fst))) := by
  have hen : (processInputs st1 g.input).enabledDomains = enabled0 := by
    rw [processInputs_enabled, processInitializers_enabled h1]
  have hemp : (reverifyUnknown am (scanNodes am enabled0 g.node).2
      (scanNodes am enabled0 g.node).1).isEmpty = false := by
    cases hl : reverifyUnknown am (scanNodes am enabled0 g.node).2
        (scanNodes am enabled0 g.node).1 with
    | nil => exact absurd hl hne
    | cons a t => rfl
  simp [Graph.construct, h1, verifyOperators, hen, hemp, hne, unknownOpsToString]

/-- A registry where only the default-domain operator `Add` exists. -/
def amC3 : AvailabilityModel := ⟨fun d t => d == "" && t == "Add", fun _ _ => false⟩

/-- One unsupported default-domain operator plus one operator of an
unsupported domain. -/
def gC3 : GraphProto :=
  ⟨[], [], [⟨"", "", "Foo", [], ["a"]⟩, ⟨"", "unknown.domain", "Bar", [], ["b"]⟩], []⟩

/-- Witness for C3: both offenders appear in the one failure message. -/
theorem construct_reports_all_unsupported_ops_witness :
    Graph.construct amC3 [] gC3 = .error (.unsupportedOps
      "nGraph does not support the following ONNX operations: Foo, unknown.domain.Bar") := by
  have h := construct_reports_all_unsupported_ops amC3 [] gC3 ⟨⟨[]⟩, [], [], [], []⟩ rfl
    (List.cons_ne_nil _ _)
  rw [h]
  rfl

theorem mem_mapInsert {k : String} {v : NodeProto} {m : List (String × NodeProto)}
    {p : String × NodeProto} (h : p ∈ mapInsert k v m) : p = (k, v) ∨ p ∈ m := by
  induction m with
  | nil =>
    rw [mapInsert] at h
    exact .inl (List.mem_singleton.mp h)
  | cons a rest ih =>
    obtain ⟨k', v'⟩ := a
    rw [mapInsert] at h
    split at h
    · rcases List.mem_cons.mp h with rfl | hm
      · exact .inl rfl
      · exact .inr hm
    · split at h
      · exact .inr h
      · rcases List.mem_cons.mp h with rfl | hm
        · exact .inr (List.mem_cons_self _ _)
        · rcases ih hm with h' | h'
          · exact .inl h'
          · exact .inr (List.mem_cons_of_mem _ h')

theorem scanNodes_fold_mem (am : AvailabilityModel) (nodes : List NodeProto)
    (P : NodeProto → Prop) :
    ∀ acc : List (String × NodeProto) × List String,
      (∀ p ∈ acc.1, P p.2) → (∀ n ∈ nodes, P n) →
      ∀ p ∈ (nodes.foldl
        (fun acc n =>
          if isOperatorAvailable am acc.2 n then acc
          else (mapInsert (opDomainAndName n) n acc.1, enableOpsetDomain acc.2 n.domain))
        acc).1, P p.2 := by
  induction nodes with
  | nil => intro acc hacc _ p hp; exact hacc p hp
  | cons n rest ih =>
    intro acc hacc hnodes p hp
    rw [List.foldl_cons] at hp
    refine ih _ ?_ (fun n' hn' => hnodes n' (List.mem_cons_of_mem _ hn')) p hp
    intro q hq
    split at hq
    · exact hacc q hq
    · rcases mem_mapInsert hq with rfl | hq'
      · exact hnodes n (List.mem_cons_self _ _)
      · exact hacc q hq'

theorem scanNodes_unknown_mem (am : AvailabilityModel) (enabled : List String)
    (nodes : List NodeProto) :
    ∀ p ∈ (scanNodes am enabled nodes).1, p.2 ∈ nodes := by
  intro p hp
  exact scanNodes_fold_mem am nodes (· ∈ nodes) ([], enabled) (by simp) (fun _ h => h) p hp

/-- C4: when every node's operator is resolvable under the domains the
upfront scan has enabled, the re-verification pass empties the
unavailable set and construction succeeds. -/
theorem construct_succeeds_after_domain_enable
    (am : AvailabilityModel) (enabled0 : List String) (g : GraphProto) (st1 : GraphSt)
    (h1 : processInitializers ⟨⟨[]⟩, [], [], [], enabled0⟩ g.initializer = .ok st1)
    (hav : ∀ n ∈ g.node, isOperatorAvailable am (scanNodes am enabled0 g.node).2 n = true) :
    ∃ st, Graph.construct am enabled0 g = .ok st := by
  have hen : (processInputs st1 g.input).enabledDomains = enabled0 := by
    rw [processInputs_enabled, processInitializers_enabled h1]
  have hemp : reverifyUnknown am (scanNodes am enabled0 g.node).2
      (scanNodes am enabled0 g.node).1 = [] := by
    refine List.filter_eq_nil_iff.mpr ?_
    intro p hp
    have hmem := scanNodes_unknown_mem am enabled0 g.node p hp
    simp [hav p.2 hmem]
  refine ⟨{ processInputs st1 g.input with
            enabledDomains := (scanNodes am enabled0 g.node).2 }, ?_⟩
  simp [Graph.construct, h1, verifyOperators, hen, hemp]

/-- A registry where `custom.ops.MyOp` exists only once its domain has
been enabled. -/
def amC4 : AvailabilityModel :=
  ⟨fun _ _ => false, fun d t => d == "custom.ops" && t == "MyOp"⟩

/-- A single-node model using the initially unregistered domain
`custom.ops`. -/
def gC4 : GraphProto := ⟨[], [], [⟨"", "custom.ops", "MyOp", [], ["y"]⟩], []⟩

/-- Witness for C4: the single-node `custom.ops` model constructs
successfully via the domain auto-registration path. -/
theorem construct_succeeds_after_domain_enable_witness :
    ∃ st, Graph.construct amC4 [] gC4 = .ok st :=
  construct_succeeds_after_domain_enable amC4 [] gC4 ⟨⟨[]⟩, [], [], [], []⟩ rfl (by decide)

/-! ### C2 — degraded initializers become zero scalars -/

theorem Env.getNode_modifyOut_self (e : Env) (ref : OutputRef) (f : OutInfo → OutInfo)
    (h : ref.node < e.nodes.length) :
    (e.modifyOut ref f).getNode ref.node =
      { e.getNode ref.node with
        outs := (e.getNode ref.node).outs.set ref.port
          (f ((e.getNode ref.node).outs.getD ref.port default)) } :=
  Env.getNode_set_self e.nodes ref.node _ h

/-- The facts preserved from a state by the remaining constructor
phases: a cache binding for `nm`, the node it points at, and the
warnings issued so far. -/
def PreservedFrom (st st' : GraphSt) (nm : String) : Prop :=
  cacheLookup st'.cache nm = cacheLookup st.cache nm ∧
  st.env.nodes.length ≤ st'.env.nodes.length ∧
  (∀ i, i < st.env.nodes.length → st'.env.getNode i = st.env.getNode i) ∧
  (∀ w ∈ st.warnings, w ∈ st'.warnings)

theorem PreservedFrom.refl (st : GraphSt) (nm : String) : PreservedFrom st st nm :=
  ⟨Eq.refl _, le_refl _, fun _ _ => Eq.refl _, fun _ h => h⟩

theorem PreservedFrom.trans {s1 s2 s3 : GraphSt} {nm : String}
    (h12 : PreservedFrom s1 s2 nm) (h23 : PreservedFrom s2 s3 nm) :
    PreservedFrom s1 s3 nm := by
  obtain ⟨a12, b12, c12, d12⟩ := h12
  obtain ⟨a23, b23, c23, d23⟩ := h23
  exact ⟨a23.trans a12, b12.trans b23,
    fun i hi => (c23 i (lt_of_lt_of_le hi b12)).trans (c12 i hi),
    fun w hw => d23 w (d12 w hw)⟩

theorem processInitializer_preserves {st st' : GraphSt} {t : TensorProto} {nm : String}
    (hneq : t.name ≠ some nm) (hok : processInitializer st t = .ok st') :
    PreservedFrom st st' nm := by
  cases ht : t.name with
  | none =>
    simp [processInitializer, ht] at hok
    exact hok ▸ PreservedFrom.refl st nm
  | some nm' =>
    have hnm' : nm' ≠ nm := fun h => hneq (by rw [ht, h])
    cases hd : t.decode with
    | invalidExternalData => simp [processInitializer, ht, hd] at hok
    | ok c =>
      simp [processInitializer, ht, hd] at hok
      rw [← hok]
      refine ⟨cacheLookup_emplace_ne _ _ _ _ hnm', by simp, ?_, fun w hw => hw⟩
      intro i hi
      simp only [Env.setTensorNames]
      rw [Env.getNode_modifyOut_ne _ _ _ i (Nat.ne_of_lt hi),
        Env.getNode_addNode_old _ _ i hi]
    | otherError m =>
      simp [processInitializer, ht, hd] at hok
      rw [← hok]
      refine ⟨cacheLookup_emplace_ne _ _ _ _ hnm', by simp, ?_, ?_⟩
      · intro i hi
        simp only [Env.setTensorNames]
        rw [Env.getNode_modifyOut_ne _ _ _ i (Nat.ne_of_lt hi),
          Env.getNode_addNode_old _ _ i hi]
      · intro w hw
        exact List.mem_append_left _ hw

theorem processInitializers_preserves {l : List TensorProto} {st st' : GraphSt} {nm : String}
    (hl : ∀ u ∈ l, u.name ≠ some nm) (hok : processInitializers st l = .ok st') :
    PreservedFrom st st' nm := by
  induction l generalizing st with
  | nil =>
    simp [processInitializers] at hok
    exact hok ▸ PreservedFrom.refl st nm
  | cons a rest ih =>
    rw [processInitializers] at hok
    cases hstep : processInitializer st a with
    | error e => rw [hstep] at hok; simp at hok
    | ok st1 =>
      rw [hstep] at hok
      simp at hok
      exact (processInitializer_preserves (hl a (List.mem_cons_self _ _)) hstep).trans
        (ih (fun u hu => hl u (List.mem_cons_of_mem _ hu)) hok)

theorem processInput_preserves {st : GraphSt} {nm : String} {r : OutputRef}
    (v : ValueInfoProto) (h : cacheLookup st.cache nm = some r) :
    PreservedFrom st (processInput st v) nm := by
  unfold processInput
  by_cases hc : cacheContains st.cache v.name
  · simp [hc]
    exact PreservedFrom.refl st nm
  · have hvn : v.name ≠ nm := by
      intro he
      rw [he] at hc
      exact hc (cacheContains_of_lookup h)
    simp [hc]
    refine ⟨cacheLookup_emplace_ne _ _ _ _ hvn, by simp, ?_, fun w hw => hw⟩
    intro i hi
    exact Env.getNode_addNode_old _ _ i hi

theorem processInputs_preserves {st : GraphSt} {nm : String} {r : OutputRef}
    (l : List ValueInfoProto) (h : cacheLookup st.cache nm = some r) :
    PreservedFrom st (processInputs st l) nm := by
  induction l generalizing st with
  | nil => exact PreservedFrom.refl st nm
  | cons v rest ih =>
    rw [processInputs]
    have h1 := processInput_preserves v h
    have h2 : cacheLookup (processInput st v).cache nm = some r := by
      rw [h1.1, h]
    exact h1.trans (ih h2)

theorem verifyOperators_preserves {am : AvailabilityModel} {g : GraphProto}
    {st st' : GraphSt} (hok : verifyOperators am g st = .ok st') :
    st'.cache = st.cache ∧ st'.env = st.env ∧ st'.warnings = st.warnings ∧
    st'.parameters = st.parameters := by
  unfold verifyOperators at hok
  by_cases hc : (reverifyUnknown am (scanNodes am st.enabledDomains g.node).2
      (scanNodes am st.enabledDomains g.node).1).isEmpty
  · simp only [hc, if_true] at hok
    simp at hok
    rw [← hok]
    exact ⟨rfl, rfl, rfl, rfl⟩
  · simp only [hc, if_false] at hok
    simp at hok

theorem processInitializers_append (st : GraphSt) (a b : List TensorProto) :
    processInitializers st (a ++ b) =
      (processInitializers st a) >>= fun s => processInitializers s b := by
  induction a generalizing st with
  | nil => simp [processInitializers]
  | cons x rest ih =>
    rw [List.cons_append, processInitializers, processInitializers]
    cases hstep : processInitializer st x with
    | error e => simp
    | ok st1 => simp [ih st1]

/-- C2: a named initializer whose decode fails for any reason other
than unresolvable external data is degraded, not fatal: construction
(when it completes) has warned about that initializer by name and the
cache maps the initializer's name to a constant holding the single
zero value, of the initializer's element type, with empty shape, whose
tensor names are exactly the initializer's name.  (The hypothesis that
no later initializer reuses the name rules out last-write-wins
shadowing.) -/
theorem construct_degrades_bad_initializer
    (am : AvailabilityModel) (enabled0 : List String) (g : GraphProto)
    (pre post : List TensorProto) (t : TensorProto) (nm msg : String) (st : GraphSt)
    (hsplit : g.initializer = pre ++ t :: post)
    (hn : t.name = some nm) (hd : t.decode = .otherError msg)
    (hpost : ∀ u ∈ post, u.name ≠ some nm)
    (hok : Graph.construct am enabled0 g = .ok st) :
    nm ∈ st.warnings ∧
    ∃ cid, cacheLookup st.cache nm = some ⟨cid, 0⟩ ∧
      (st.env.getNode cid).kind = .constant ⟨t.elemType, [], [0]⟩ ∧
      (st.env.outInfo ⟨cid, 0⟩).names = [nm] ∧
      (st.env.outInfo ⟨cid, 0⟩).pshape = [] := by
  rw [Graph.construct] at hok
  cases h1 : processInitializers ⟨⟨[]⟩, [], [], [], enabled0⟩ g.initializer with
  | error e => rw [h1] at hok; simp at hok
  | ok st1 =>
    rw [h1] at hok
    simp at hok
    rw [hsplit, processInitializers_append] at h1
    cases hpre : processInitializers ⟨⟨[]⟩, [], [], [], enabled0⟩ pre with
    | error e => rw [hpre] at h1; simp at h1
    | ok sP =>
      rw [hpre] at h1
      simp at h1
      rw [processInitializers] at h1
      have hstep : processInitializer sP t = .ok
          { sP with
            env := ((sP.env.addNode
              ⟨.constant ⟨t.elemType, [], [0]⟩, "", [],
                [⟨t.elemType, [], [], ""⟩]⟩).1).setTensorNames
              ⟨sP.env.nodes.length, 0⟩ [nm],
            cache := cacheEmplace sP.cache nm ⟨sP.env.nodes.length, 0⟩,
            warnings := sP.warnings ++ [nm] } := by
        simp [processInitializer, hn, hd, Env.addNode]
      rw [hstep] at h1
      simp at h1
      set cid := sP.env.nodes.length with hcid
      set stT : GraphSt :=
        { sP with
          env := ((sP.env.addNode
            ⟨.constant ⟨t.elemType, [], [0]⟩, "", [],
              [⟨t.elemType, [], [], ""⟩]⟩).1).setTensorNames ⟨cid, 0⟩ [nm],
          cache := cacheEmplace sP.cache nm ⟨cid, 0⟩,
          warnings := sP.warnings ++ [nm] } with hstT
      have hTnode : stT.env.getNode cid =
          ⟨.constant ⟨t.elemType, [], [0]⟩, "", [], [⟨t.elemType, [], [nm], ""⟩]⟩ := by
        show (((sP.env.addNode _).1).setTensorNames ⟨cid, 0⟩ [nm]).getNode cid = _
        rw [Env.setTensorNames, Env.getNode_modifyOut_self _ _ _ (by simp [hcid]),
          Env.getNode_addNode_new]
        rfl
      have hTlook : cacheLookup stT.cache nm = some ⟨cid, 0⟩ :=
        cacheLookup_emplace_self _ _ _
      have hTwarn : nm ∈ stT.warnings := List.mem_append_right _ (List.mem_singleton_self nm)
      have hTlen : cid < stT.env.nodes.length := by
        show cid < (((sP.env.addNode _).1).setTensorNames ⟨cid, 0⟩ [nm]).nodes.length
        simp [hcid]
      have hPost : PreservedFrom stT st1 nm := processInitializers_preserves hpost h1
      have hLook1 : cacheLookup st1.cache nm = some ⟨cid, 0⟩ := by rw [hPost.1, hTlook]
      have hIn : PreservedFrom st1 (processInputs st1 g.input) nm :=
        processInputs_preserves g.input hLook1
      have hAll : PreservedFrom stT (processInputs st1 g.input) nm := hPost.trans hIn
      obtain ⟨hvc, hve, hvw, _⟩ := verifyOperators_preserves hok
      refine ⟨?_, cid, ?_, ?_, ?_, ?_⟩
      · rw [hvw]
        exact hAll.2.2.2 nm hTwarn
      · rw [hvc, hAll.1, hTlook]
      · rw [hve, hAll.2.2.1 cid (by exact hTlen), hTnode]
      · rw [Env.outInfo, hve, hAll.2.2.1 cid (by exact hTlen), hTnode]
        rfl
      · rw [Env.outInfo, hve, hAll.2.2.1 cid (by exact hTlen), hTnode]
        rfl

/-- The model for the C2 witness: a well-formed initializer, a degraded
one, and a node requiring the default domain's `Add`. -/
def gC2w : GraphProto :=
  ⟨[⟨some "ok", "f32", .ok ⟨"f32", [1], [3]⟩⟩, ⟨some "bad", "i64", .otherError "short payload"⟩],
   [], [⟨"", "", "Add", [], ["s"]⟩], []⟩

/-- Witness for C2 at `gC2w`: conversion continues (construction
succeeds), warns about `bad`, and caches a zero-valued `i64` scalar
under `bad`. -/
theorem construct_degrades_bad_initializer_witness :
    "bad" ∈ (⟨⟨[⟨.constant ⟨"f32", [1], [3]⟩, "", [], [⟨"f32", [some 1], ["ok"], ""⟩]⟩,
               ⟨.constant ⟨"i64", [], [0]⟩, "", [], [⟨"i64", [], ["bad"], ""⟩]⟩]⟩,
             [("bad", ⟨1, 0⟩), ("ok", ⟨0, 0⟩)], [], ["bad"], []⟩ : GraphSt).warnings ∧
    ∃ cid, cacheLookup (⟨⟨[⟨.constant ⟨"f32", [1], [3]⟩, "", [], [⟨"f32", [some 1], ["ok"], ""⟩]⟩,
               ⟨.constant ⟨"i64", [], [0]⟩, "", [], [⟨"i64", [], ["bad"], ""⟩]⟩]⟩,
             [("bad", ⟨1, 0⟩), ("ok", ⟨0, 0⟩)], [], ["bad"], []⟩ : GraphSt).cache "bad" =
          some ⟨cid, 0⟩ ∧
      ((⟨⟨[⟨.constant ⟨"f32", [1], [3]⟩, "", [], [⟨"f32", [some 1], ["ok"], ""⟩]⟩,
               ⟨.constant ⟨"i64", [], [0]⟩, "", [], [⟨"i64", [], ["bad"], ""⟩]⟩]⟩,
             [("bad", ⟨1, 0⟩), ("ok", ⟨0, 0⟩)], [], ["bad"], []⟩ : GraphSt).env.getNode cid).kind =
          .constant ⟨"i64", [], [0]⟩ ∧
      ((⟨⟨[⟨.constant ⟨"f32", [1], [3]⟩, "", [], [⟨"f32", [some 1], ["ok"], ""⟩]⟩,
               ⟨.constant ⟨"i64", [], [0]⟩, "", [], [⟨"i64", [], ["bad"], ""⟩]⟩]⟩,
             [("bad", ⟨1, 0⟩), ("ok", ⟨0, 0⟩)], [], ["bad"], []⟩ : GraphSt).env.outInfo
          ⟨cid, 0⟩).names = ["bad"] ∧
      ((⟨⟨[⟨.constant ⟨"f32", [1], [3]⟩, "", [], [⟨"f32", [some 1], ["ok"], ""⟩]⟩,
               ⟨.constant ⟨"i64", [], [0]⟩, "", [], [⟨"i64", [], ["bad"], ""⟩]⟩]⟩,
             [("bad", ⟨1, 0⟩), ("ok", ⟨0, 0⟩)], [], ["bad"], []⟩ : GraphSt).env.outInfo
          ⟨cid, 0⟩).pshape = [] :=
  construct_degrades_bad_initializer amC3 [] gC2w
    [⟨some "ok", "f32", .ok ⟨"f32", [1], [3]⟩⟩] []
    ⟨some "bad", "i64", .otherError "short payload"⟩ "bad" "short payload" _
    rfl rfl rfl (by simp) rfl

/-! ### C9 — error handling in `make_ng_nodes` -/

/-- C9: per-node conversion failures are never swallowed — an
`OnnxNodeValidationFailure` propagates unchanged; any other standard
exception is re-thrown as an `ngraph_error` whose message is the
node-identifying prefix followed by the original message; an
unrecognized exception is re-raised without modification after the
prefix is logged; and whenever the conversion function does not
succeed, `make_ng_nodes` yields an error. -/
theorem makeNgNodes_error_policy (factory : Factory) (n : NodeProto) (st : GraphSt) :
    (∀ msg, factory n st = .validationFailure msg →
        makeNgNodes factory n st = .error (.validationFailure msg)) ∧
    (∀ msg, factory n st = .stdException msg →
        makeNgNodes factory n st =
          .error (.ngraphError (getErrorMsgPrefix n ++ ":\n" ++ msg))) ∧
    (factory n st = .unknownException →
        makeNgNodes factory n st = .error .unknownException ∧
        makeNgNodesLog factory n st = [getErrorMsgPrefix n ++ "Unhandled exception type. \n"]) ∧
    ((∀ env outs, factory n st ≠ .ok env outs) →
        ∃ e, makeNgNodes factory n st = .error e) := by
  refine ⟨?_, ?_, ?_, ?_⟩
  · intro msg h
    simp [makeNgNodes, h]
  · intro msg h
    simp [makeNgNodes, h]
  · intro h
    exact ⟨by simp [makeNgNodes, h], by simp [makeNgNodesLog, h]⟩
  · intro h
    cases hf : factory n st with
    | ok env outs => exact absurd hf (h env outs)
    | validationFailure msg =>
      exact ⟨.validationFailure msg, by simp [makeNgNodes, hf]⟩
    | stdException msg =>
      exact ⟨.ngraphError (getErrorMsgPrefix n ++ ":\n" ++ msg), by simp [makeNgNodes, hf]⟩
    | unknownException => exact ⟨.unknownException, by simp [makeNgNodes, hf]⟩

/-- A named node used by the C9 witness. -/
def nC9 : NodeProto := ⟨"gemm_1", "", "Gemm", ["a"], ["y"]⟩

/-- Witness for C9: the three rethrow behaviors at concrete conversion
functions and a concrete node. -/
theorem makeNgNodes_error_policy_witness :
    makeNgNodes (fun _ _ => .validationFailure "rank mismatch") nC9 ⟨⟨[]⟩, [], [], [], []⟩ =
        .error (.validationFailure "rank mismatch") ∧
    makeNgNodes (fun _ _ => .stdException "boom") nC9 ⟨⟨[]⟩, [], [], [], []⟩ =
        .error (.ngraphError "gemm_1:\nboom") ∧
    makeNgNodes (fun _ _ => .unknownException) nC9 ⟨⟨[]⟩, [], [], [], []⟩ =
        .error .unknownException ∧
    makeNgNodesLog (fun _ _ => .unknownException) nC9 ⟨⟨[]⟩, [], [], [], []⟩ =
        ["gemm_1Unhandled exception type. \n"] := by
  refine ⟨?_, ?_, ?_, ?_⟩
  · exact (makeNgNodes_error_policy (fun _ _ => .validationFailure "rank mismatch") nC9
      ⟨⟨[]⟩, [], [], [], []⟩).1 "rank mismatch" rfl
  · exact (makeNgNodes_error_policy (fun _ _ => .stdException "boom") nC9
      ⟨⟨[]⟩, [], [], [], []⟩).2.1 "boom" rfl
  · exact ((makeNgNodes_error_policy (fun _ _ => .unknownException) nC9
      ⟨⟨[]⟩, [], [], [], []⟩).2.2.1 rfl).1
  · exact ((makeNgNodes_error_policy (fun _ _ => .unknownException) nC9
      ⟨⟨[]⟩, [], [], [], []⟩).2.2.1 rfl).2

/-! ### C6 — friendly-naming policy -/

theorem Env.friendly_modifyOut (e : Env) (ref : OutputRef) (f : OutInfo → OutInfo) (j : Nat) :
    ((e.modifyOut ref f).getNode j).friendlyName = (e.getNode j).friendlyName := by
  by_cases h : j = ref.node
  · by_cases hl : ref.node < e.nodes.length
    · rw [h, Env.getNode_modifyOut_self _ _ _ hl]
    · have hle : e.nodes.length ≤ ref.node := Nat.le_of_not_lt hl
      show ((Env.mk (e.nodes.set ref.node _)).getNode j).friendlyName = _
      rw [List.set_eq_of_length_le hle]
  · rw [Env.getNode_modifyOut_ne _ _ _ j h]

theorem Env.friendly_setTensorNames (e : Env) (ref : OutputRef) (nms : List String) (j : Nat) :
    ((e.setTensorNames ref nms).getNode j).friendlyName = (e.getNode j).friendlyName :=
  Env.friendly_modifyOut e ref _ j

theorem Env.friendly_setLegacyName (e : Env) (ref : OutputRef) (nm : String) (j : Nat) :
    ((e.setLegacyName ref nm).getNode j).friendlyName = (e.getNode j).friendlyName :=
  Env.friendly_modifyOut e ref _ j

theorem Env.friendly_setFriendly_self (e : Env) (i : Nat) (nm : String)
    (h : i < e.nodes.length) :
    ((e.setFriendly i nm).getNode i).friendlyName = nm := by
  rw [Env.getNode_setFriendly_self e i nm h]

/-- One naming-loop step never changes the length of the node heap. -/
theorem setNamesLoop_length (nodeName : String) (common : Bool) (env : Env)
    (l : List (OutputRef × String)) :
    (setNamesLoop nodeName common env l).nodes.length = env.nodes.length := by
  induction l generalizing env with
  | nil => rfl
  | cons p rest ih =>
    obtain ⟨ref, onm⟩ := p
    rw [setNamesLoop, ih]
    split_ifs <;> simp

/-- The naming loop leaves alone the friendly name of any node that no
pair writes to. -/
theorem setNamesLoop_friendly_untouched (nodeName : String) (common : Bool) (env : Env)
    (l : List (OutputRef × String)) (k : Nat)
    (hk : ∀ p ∈ l, p.1.node ≠ k) :
    ((setNamesLoop nodeName common env l).getNode k).friendlyName =
      (env.getNode k).friendlyName := by
  induction l generalizing env with
  | nil => rfl
  | cons p rest ih =>
    obtain ⟨ref, onm⟩ := p
    have hrk : ref.node ≠ k := hk (ref, onm) (List.mem_cons_self _ _)
    have hne' : ∀ (e : Env) (nm : String), (e.setFriendly ref.node nm).getNode k = e.getNode k :=
      fun e nm => Env.getNode_setFriendly_ne e ref.node k nm (Ne.symm hrk)
    rw [setNamesLoop, ih _ (fun q hq => hk q (List.mem_cons_of_mem _ hq))]
    split_ifs <;>
      simp only [Env.friendly_setTensorNames, Env.friendly_setLegacyName, hne']

/-- What one pass of the naming loop writes as the friendly name of the
producing node, as a function of the declared node name, the
common-node flag and the declared output name. -/
def namePolicy (nodeName : String) (common : Bool) (onm : String) : String :=
  if nodeName = "" then onm else if common then nodeName else nodeName ++ "_" ++ onm

/-- When every pair of the naming loop writes to the same node `k`, the
last write wins: the final friendly name of `k` comes from the last
pair. -/
theorem setNamesLoop_friendly_last (nodeName : String) (common : Bool) (env : Env)
    (l : List (OutputRef × String)) (k : Nat) (p : OutputRef × String)
    (hk : ∀ q ∈ l, q.1.node = k) (hb : k < env.nodes.length)
    (hlast : l.getLast? = some p) :
    ((setNamesLoop nodeName common env l).getNode k).friendlyName =
      namePolicy nodeName common p.2 := by
  induction l generalizing env with
  | nil => simp at hlast
  | cons q rest ih =>
    obtain ⟨ref, onm⟩ := q
    have hrefk : ref.node = k := hk (ref, onm) (List.mem_cons_self _ _)
    cases rest with
    | nil =>
      simp only [List.getLast?_singleton, Option.some_inj] at hlast
      subst hlast
      rw [setNamesLoop, setNamesLoop, ← hrefk]
      unfold namePolicy
      split_ifs <;>
        simp only [Env.friendly_setTensorNames, Env.friendly_setLegacyName] <;>
        exact Env.friendly_setFriendly_self env _ _ (by rw [hrefk]; exact hb)
    | cons r rest' =>
      rw [setNamesLoop]
      have hlast' : (r :: rest').getLast? = some p := by
        rwa [List.getLast?_cons_cons] at hlast
      have hk' : ∀ q ∈ r :: rest', q.1.node = k :=
        fun q hq => hk q (List.mem_cons_of_mem _ hq)
      split_ifs <;>
        exact ih _ hk' (by simpa using hb) hlast'

/-- When the naming loop's pairs write to pairwise distinct nodes, each
node ends up with exactly its own pair's name. -/
theorem setNamesLoop_friendly_each (nodeName : String) (common : Bool) (env : Env)
    (l : List (OutputRef × String))
    (hnodup : (l.map fun q => q.1.node).Nodup)
    (hbound : ∀ q ∈ l, q.1.node < env.nodes.length) :
    ∀ q ∈ l, ((setNamesLoop nodeName common env l).getNode q.1.node).friendlyName =
      namePolicy nodeName common q.2 := by
  induction l generalizing env with
  | nil => intro q hq; cases hq
  | cons a rest ih =>
    obtain ⟨ref, onm⟩ := a
    intro q hq
    have hnotin : ∀ q' ∈ rest, q'.1.node ≠ ref.node := by
      intro q' hq' he
      have hni : ref.node ∉ rest.map fun q => q.1.node := (List.nodup_cons.mp hnodup).1
      exact hni (he ▸ List.mem_map_of_mem _ hq')
    have hb : ref.node < env.nodes.length := hbound _ (List.mem_cons_self _ _)
    rcases List.mem_cons.mp hq with rfl | hq'
    · rw [setNamesLoop, setNamesLoop_friendly_untouched _ _ _ _ _ hnotin]
      unfold namePolicy
      split_ifs <;>
        simp only [Env.friendly_setTensorNames, Env.friendly_setLegacyName] <;>
        exact Env.friendly_setFriendly_self env _ _ hb
    · rw [setNamesLoop]
      split_ifs <;>
        exact ih _ (List.nodup_cons.mp hnodup).2
          (fun q'' hq'' => by simpa using hbound q'' (List.mem_cons_of_mem _ hq'')) q hq'

theorem commonNode_of_same {outs : List OutputRef} {k : Nat}
    (h : ∀ r ∈ outs, r.node = k) : commonNodeForAllOutputs outs = true := by
  cases outs with
  | nil => rfl
  | cons r rest =>
    simp only [commonNodeForAllOutputs, List.all_eq_true]
    intro r' hr'
    rw [h r' (List.mem_cons_of_mem _ hr'), h r (List.mem_cons_self _ _)]
    exact beq_self_eq_true k

theorem commonNode_false_of_nodup {outs : List OutputRef}
    (hn : (outs.map fun r => r.node).Nodup) (hlen : 2 ≤ outs.length) :
    commonNodeForAllOutputs outs = false := by
  match outs, hlen with
  | r0 :: r1 :: rest, _ =>
    have hne : r1.node ≠ r0.node := by
      have h0 : r0.node ∉ (r1 :: rest).map fun r => r.node :=
        (List.nodup_cons.mp hn).1
      intro he
      exact h0 (by simp [← he])
    simp only [commonNodeForAllOutputs, List.all_cons, Bool.and_eq_false_iff]
    exact .inl (by simpa using hne)

/-- C6: friendly naming of a converted non-Identity node.  (1) unnamed
node, all outputs from one producer: the producer ends up named after the
last declared output; (2) unnamed node, distinct producers: each
producer is named after its own declared output; (3) named node, one
common producer: the producer's friendly name is exactly the declared
node name; (4) named node, distinct producers: each producer is the
declared name, `'_'`, and its own declared output name. -/
theorem setFriendlyNames_policy
    (n : NodeProto) (outs : List OutputRef) (env : Env)
    (hident : n.opType ≠ "Identity")
    (hlen : outs.length = n.output.length)
    (hne : outs ≠ [])
    (hbound : ∀ r ∈ outs, r.node < env.nodes.length) :
    (n.name = "" → (∀ r ∈ outs, r.node = (outs.getD 0 default).node) →
      ((setFriendlyNames n outs env).getNode (outs.getD 0 default).node).friendlyName =
        n.output.getD (n.output.length - 1) "") ∧
    (n.name = "" → (outs.map fun r => r.node).Nodup →
      ∀ i, i < outs.length →
      ((setFriendlyNames n outs env).getNode (outs.getD i default).node).friendlyName =
        n.output.getD i "") ∧
    (n.name ≠ "" → (∀ r ∈ outs, r.node = (outs.getD 0 default).node) →
      ((setFriendlyNames n outs env).getNode (outs.getD 0 default).node).friendlyName =
        n.name) ∧
    (n.name ≠ "" → (outs.map fun r => r.node).Nodup → 2 ≤ outs.length →
      ∀ i, i < outs.length →
      ((setFriendlyNames n outs env).getNode (outs.getD i default).node).friendlyName =
        n.name ++ "_" ++ n.output.getD i "") := by
  have houtlen : n.output ≠ [] := by
    intro h
    rw [h] at hlen
    simp at hlen
    exact hne hlen
  have hzlen : (outs.zip n.output).length = outs.length := by
    rw [List.length_zip, hlen, Nat.min_self]
  have hzne : outs.zip n.output ≠ [] := by
    intro h
    have := congrArg List.length h
    rw [hzlen] at this
    exact hne (List.length_eq_zero.mp (by simpa using this))
  have hmemfst : ∀ q ∈ outs.zip n.output, q.1 ∈ outs := by
    intro q hq
    exact (List.of_mem_zip hq).1
  have hzbound : ∀ q ∈ outs.zip n.output, q.1.node < env.nodes.length :=
    fun q hq => hbound q.1 (hmemfst q hq)
  have hfst : (outs.zip n.output).map Prod.fst = outs :=
    List.map_fst_zip _ _ (le_of_eq hlen)
  have hzelem : ∀ i, i < outs.length →
      (outs.zip n.output).getD i default = (outs.getD i default, n.output.getD i "") := by
    intro i hi
    have hi2 : i < n.output.length := hlen ▸ hi
    have hiz : i < (outs.zip n.output).length := by rw [hzlen]; exact hi
    rw [List.getD_eq_getElem _ _ hiz, List.getD_eq_getElem _ _ hi,
      List.getD_eq_getElem _ _ hi2]
    exact List.getElem_zip
  have hsfn : setFriendlyNames n outs env =
      setNamesLoop n.name (commonNodeForAllOutputs outs) env (outs.zip n.output) := by
    simp [setFriendlyNames, hident]
  refine ⟨?_, ?_, ?_, ?_⟩
  · -- unnamed, common producer: last write wins
    intro hnm hsame
    have hk : ∀ q ∈ outs.zip n.output, q.1.node = (outs.getD 0 default).node :=
      fun q hq => hsame q.1 (hmemfst q hq)
    have hb : (outs.getD 0 default).node < env.nodes.length := by
      refine hbound _ ?_
      have h0 : 0 < outs.length := List.length_pos.mpr hne
      rw [List.getD_eq_getElem _ _ h0]
      exact List.getElem_mem _
    have hlast : (outs.zip n.output).getLast? =
        some ((outs.zip n.output).getD ((outs.zip n.output).length - 1) default) := by
      have hpos : 0 < (outs.zip n.output).length := by
        rw [hzlen]; exact List.length_pos.mpr hne
      have hidx : (outs.zip n.output).length - 1 < (outs.zip n.output).length := by omega
      rw [List.getLast?_eq_getElem?, List.getElem?_eq_getElem hidx,
        List.getD_eq_getElem _ _ hidx]
    rw [hsfn, setNamesLoop_friendly_last _ _ _ _ _ _ hk hb hlast]
    have hidx : (outs.zip n.output).length - 1 < outs.length := by
      rw [hzlen]
      have : 0 < outs.length := List.length_pos.mpr hne
      omega
    rw [hzelem _ (by rw [hzlen] at hidx ⊢; exact hidx)]
    simp only [namePolicy, if_pos hnm]
    rw [hzlen, hlen]
  · -- unnamed, distinct producers
    intro hnm hnodup i hi
    have hznodup : ((outs.zip n.output).map fun q => q.1.node).Nodup := by
      have h1 : ((outs.zip n.output).map Prod.fst).map (fun r : OutputRef => r.node) =
          (outs.zip n.output).map fun q => q.1.node := by
        rw [List.map_map]
        rfl
      rw [← h1, hfst]
      exact hnodup
    have hq : ((outs.zip n.output).getD i default) ∈ outs.zip n.output := by
      have hiz : i < (outs.zip n.output).length := by rw [hzlen]; exact hi
      rw [List.getD_eq_getElem _ _ hiz]
      exact List.getElem_mem _
    have := setNamesLoop_friendly_each n.name (commonNodeForAllOutputs outs) env
      (outs.zip n.output) hznodup hzbound _ hq
    rw [hsfn]
    rw [hzelem i hi] at this
    rw [this]
    simp [namePolicy, hnm]
  · -- named, common producer
    intro hnm hsame
    have hk : ∀ q ∈ outs.zip n.output, q.1.node = (outs.getD 0 default).node :=
      fun q hq => hsame q.1 (hmemfst q hq)
    have hb : (outs.getD 0 default).node < env.nodes.length := by
      refine hbound _ ?_
      have h0 : 0 < outs.length := List.length_pos.mpr hne
      rw [List.getD_eq_getElem _ _ h0]
      exact List.getElem_mem _
    have hlast : (outs.zip n.output).getLast? =
        some ((outs.zip n.output).getD ((outs.zip n.output).length - 1) default) := by
      have hpos : 0 < (outs.zip n.output).length := by
        rw [hzlen]; exact List.length_pos.mpr hne
      have hidx : (outs.zip n.output).length - 1 < (outs.zip n.output).length := by omega
      rw [List.getLast?_eq_getElem?, List.getElem?_eq_getElem hidx,
        List.getD_eq_getElem _ _ hidx]
    rw [hsfn, setNamesLoop_friendly_last _ _ _ _ _ _ hk hb hlast]
    have hcommon : commonNodeForAllOutputs outs = true :=
      commonNode_of_same hsame
    simp [namePolicy, hnm, hcommon]
  · -- named, distinct producers
    intro hnm hnodup h2 i hi
    have hznodup : ((outs.zip n.output).map fun q => q.1.node).Nodup := by
      have h1 : ((outs.zip n.output).map Prod.fst).map (fun r : OutputRef => r.node) =
          (outs.zip n.output).map fun q => q.1.node := by
        rw [List.map_map]
        rfl
      rw [← h1, hfst]
      exact hnodup
    have hq : ((outs.zip n.output).getD i default) ∈ outs.zip n.output := by
      have hiz : i < (outs.zip n.output).length := by rw [hzlen]; exact hi
      rw [List.getD_eq_getElem _ _ hiz]
      exact List.getElem_mem _
    have hcommon : commonNodeForAllOutputs outs = false :=
      commonNode_false_of_nodup hnodup h2
    have := setNamesLoop_friendly_each n.name (commonNodeForAllOutputs outs) env
      (outs.zip n.output) hznodup hzbound _ hq
    rw [hsfn]
    rw [hzelem i hi] at this
    rw [this]
    simp [namePolicy, hnm, hcommon]

/-- A heap with two op nodes for the C6 witness: node 0 has two output
ports, node 1 has one. -/
def envC6 : Env :=
  ⟨[⟨.opNode "TopK", "", [], [default, default]⟩, ⟨.opNode "TopK", "", [], [default]⟩]⟩

/-- Witness for C6: a two-output node named `"N"` with outputs `out1`,
`out2` produced by distinct nodes yields friendly names `N_out1` and
`N_out2`; the same outputs on one shared producer with no node name
leave the producer named after the last output, `out2`; with a node
name and a shared producer the friendly name is exactly `N`. -/
theorem setFriendlyNames_policy_witness :
    ((setFriendlyNames ⟨"N", "", "TopK", [], ["out1", "out2"]⟩
        [⟨0, 0⟩, ⟨1, 0⟩] envC6).getNode 0).friendlyName = "N_out1" ∧
    ((setFriendlyNames ⟨"N", "", "TopK", [], ["out1", "out2"]⟩
        [⟨0, 0⟩, ⟨1, 0⟩] envC6).getNode 1).friendlyName = "N_out2" ∧
    ((setFriendlyNames ⟨"", "", "TopK", [], ["out1", "out2"]⟩
        [⟨0, 0⟩, ⟨0, 1⟩] envC6).getNode 0).friendlyName = "out2" ∧
    ((setFriendlyNames ⟨"N", "", "TopK", [], ["out1", "out2"]⟩
        [⟨0, 0⟩, ⟨0, 1⟩] envC6).getNode 0).friendlyName = "N" := by
  refine ⟨?_, ?_, ?_, ?_⟩
  · have h := (setFriendlyNames_policy ⟨"N", "", "TopK", [], ["out1", "out2"]⟩
      [⟨0, 0⟩, ⟨1, 0⟩] envC6 (by decide) rfl (by decide)
      (by decide)).2.2.2 (by decide) (by decide) (by decide) 0 (by decide)
    exact h
  · have h := (setFriendlyNames_policy ⟨"N", "", "TopK", [], ["out1", "out2"]⟩
      [⟨0, 0⟩, ⟨1, 0⟩] envC6 (by decide) rfl (by decide)
      (by decide)).2.2.2 (by decide) (by decide) (by decide) 1 (by decide)
    exact h
  · have h := (setFriendlyNames_policy ⟨"", "", "TopK", [], ["out1", "out2"]⟩
      [⟨0, 0⟩, ⟨0, 1⟩] envC6 (by decide) rfl (by decide)
      (by decide)).1 rfl (by decide)
    exact h
  · have h := (setFriendlyNames_policy ⟨"N", "", "TopK", [], ["out1", "out2"]⟩
      [⟨0, 0⟩, ⟨0, 1⟩] envC6 (by decide) rfl (by decide)
      (by decide)).2.2.1 (by decide) (by decide)
    exact h

/-! ### C7 — dangling-parameter pruning -/

theorem cacheContains_remove_self (c : Cache) (nm : String) :
    cacheContains (cacheRemove c nm) nm = false := by
  induction c with
  | nil => rfl
  | cons p rest ih =>
    by_cases h : p.1 = nm
    · rw [show cacheRemove (p :: rest) nm = cacheRemove rest nm by
        simp [cacheRemove, List.filter_cons, h]]
      exact ih
    · simp [cacheRemove, cacheContains, h, ih]

theorem cacheContains_remove_mono {c : Cache} {nm nm' : String}
    (h : cacheContains (cacheRemove c nm') nm = true) : cacheContains c nm = true := by
  simp only [cacheContains, List.any_eq_true] at h ⊢
  obtain ⟨p, hp, hpn⟩ := h
  exact ⟨p, List.mem_of_mem_filter hp, hpn⟩

/-- Full behavior of the pruning loop: survivors come from the input
list and are never dangling; non-dangling parameters survive; the cache
only shrinks; and each dangling parameter's friendly name is gone from
the cache afterwards. -/
theorem removeDanglingAux_spec (outNames : List String) (env : Env) :
    ∀ (l : List Nat) (c : Cache),
    (∀ p ∈ (removeDanglingAux outNames env l c).1,
        p ∈ l ∧ (env.hasNoConsumers ⟨p, 0⟩ = true →
          anyTensorNameMatchesOutput env ⟨p, 0⟩ outNames = true)) ∧
    (∀ p ∈ l,
        (env.hasNoConsumers ⟨p, 0⟩ = false ∨
          anyTensorNameMatchesOutput env ⟨p, 0⟩ outNames = true) →
        p ∈ (removeDanglingAux outNames env l c).1) ∧
    (∀ nm, cacheContains (removeDanglingAux outNames env l c).2 nm = true →
        cacheContains c nm = true) ∧
    (∀ p ∈ l, env.hasNoConsumers ⟨p, 0⟩ = true →
        anyTensorNameMatchesOutput env ⟨p, 0⟩ outNames = false →
        cacheContains (removeDanglingAux outNames env l c).2
          ((env.getNode p).friendlyName) = false) := by
  intro l
  induction l with
  | nil =>
    intro c
    refine ⟨fun p hp => absurd hp (List.not_mem_nil p), fun p hp => absurd hp (List.not_mem_nil p),
      fun nm h => h, fun p hp => absurd hp (List.not_mem_nil p)⟩
  | cons q rest ih =>
    intro c
    by_cases hq : (env.hasNoConsumers ⟨q, 0⟩ &&
        !anyTensorNameMatchesOutput env ⟨q, 0⟩ outNames) = true
    · have hqc : env.hasNoConsumers ⟨q, 0⟩ = true ∧
          anyTensorNameMatchesOutput env ⟨q, 0⟩ outNames = false := by
        simpa [Bool.and_eq_true] using hq
      have hrec := ih (cacheRemove c (env.getNode q).friendlyName)
      have hres : removeDanglingAux outNames env (q :: rest) c =
          removeDanglingAux outNames env rest (cacheRemove c (env.getNode q).friendlyName) := by
        rw [removeDanglingAux, if_pos hq]
      rw [hres]
      refine ⟨?_, ?_, ?_, ?_⟩
      · intro p hp
        exact ⟨List.mem_cons_of_mem _ (hrec.1 p hp).1, (hrec.1 p hp).2⟩
      · intro p hp hcond
        rcases List.mem_cons.mp hp with rfl | hmem
        · rcases hcond with h1 | h1
          · rw [hqc.1] at h1; cases h1
          · rw [hqc.2] at h1; cases h1
        · exact hrec.2.1 p hmem hcond
      · intro nm h
        exact cacheContains_remove_mono (hrec.2.2.1 nm h)
      · intro p hp hcons hmatch
        rcases List.mem_cons.mp hp with rfl | hmem
        · cases hcc : cacheContains
              (removeDanglingAux outNames env rest
                (cacheRemove c (env.getNode p).friendlyName)).2
              ((env.getNode p).friendlyName) with
          | false => rfl
          | true =>
            have := hrec.2.2.1 _ hcc
            rw [cacheContains_remove_self] at this
            cases this
        · exact hrec.2.2.2 p hmem hcons hmatch
    · have hrec := ih c
      have hres : removeDanglingAux outNames env (q :: rest) c =
          ((q :: (removeDanglingAux outNames env rest c).1),
            (removeDanglingAux outNames env rest c).2) := by
        rw [removeDanglingAux, if_neg hq]
      rw [hres]
      refine ⟨?_, ?_, ?_, ?_⟩
      · intro p hp
        rcases List.mem_cons.mp hp with rfl | hmem
        · refine ⟨List.mem_cons_self _ _, fun hcons => ?_⟩
          cases hmatch : anyTensorNameMatchesOutput env ⟨p, 0⟩ outNames with
          | true => rfl
          | false =>
            exact absurd (by rw [hcons, hmatch]; rfl) hq
        · exact ⟨List.mem_cons_of_mem _ (hrec.1 p hmem).1, (hrec.1 p hmem).2⟩
      · intro p hp hcond
        rcases List.mem_cons.mp hp with rfl | hmem
        · exact List.mem_cons_self _ _
        · exact List.mem_cons_of_mem _ (hrec.2.1 p hmem hcond)
      · exact hrec.2.2.1
      · intro p hp hcons hmatch
        rcases List.mem_cons.mp hp with rfl | hmem
        · exact absurd (by rw [hcons, hmatch]; rfl) hq
        · exact hrec.2.2.2 p hmem hcons hmatch

/-- C7: after the Finalizing step (`Graph::remove_dangling_parameters`,
run by `Graph::convert` between node conversion and function creation),
the parameter list holds no placeholder that both has zero consumers
and has no bound tensor name among the declared output names (such a
placeholder is also gone from the cache, under its friendly name),
while a zero-consumer placeholder whose bound name matches a declared
output survives. -/
theorem removeDanglingParameters_spec (g : GraphProto) (st : GraphSt) :
    (∀ p ∈ (removeDanglingParameters g st).parameters,
        st.env.hasNoConsumers ⟨p, 0⟩ = true →
        anyTensorNameMatchesOutput st.env ⟨p, 0⟩ (g.output.map ValueInfoProto.name) = true) ∧
    (∀ p ∈ st.parameters,
        anyTensorNameMatchesOutput st.env ⟨p, 0⟩ (g.output.map ValueInfoProto.name) = true →
        p ∈ (removeDanglingParameters g st).parameters) ∧
    (∀ p ∈ st.parameters,
        st.env.hasNoConsumers ⟨p, 0⟩ = true →
        anyTensorNameMatchesOutput st.env ⟨p, 0⟩ (g.output.map ValueInfoProto.name) = false →
        p ∉ (removeDanglingParameters g st).parameters ∧
        cacheContains (removeDanglingParameters g st).cache
          ((st.env.getNode p).friendlyName) = false) := by
  have h := removeDanglingAux_spec (g.output.map ValueInfoProto.name) st.env
    st.parameters st.cache
  refine ⟨?_, ?_, ?_⟩
  · intro p hp
    exact (h.1 p hp).2
  · intro p hp hmatch
    exact h.2.1 p hp (.inr hmatch)
  · intro p hp hcons hmatch
    refine ⟨fun hin => ?_, h.2.2.2 p hp hcons hmatch⟩
    have := (h.1 p hin).2 hcons
    rw [hmatch] at this
    cases this

/-- The state for the C7 witness: parameter node 0 (`dead`) has no
consumers and no output binding; parameter node 1 (`keep`) has no
consumers but is a declared output; parameter node 2 (`used`) feeds op
node 3. -/
def stC7 : GraphSt :=
  ⟨⟨[⟨.parameter, "dead", [], [⟨"f32", [], ["dead"], ""⟩]⟩,
     ⟨.parameter, "keep", [], [⟨"f32", [], ["keep"], ""⟩]⟩,
     ⟨.parameter, "used", [], [⟨"f32", [], ["used"], ""⟩]⟩,
     ⟨.opNode "Relu", "r", [⟨2, 0⟩], [⟨"f32", [], ["y"], ""⟩]⟩]⟩,
   [("dead", ⟨0, 0⟩), ("keep", ⟨1, 0⟩), ("used", ⟨2, 0⟩), ("y", ⟨3, 0⟩)],
   [0, 1, 2], [], []⟩

/-- The model for the C7 witness: `keep` is also a declared output. -/
def gC7 : GraphProto := ⟨[], [⟨"dead", "f32", []⟩, ⟨"keep", "f32", []⟩, ⟨"used", "f32", []⟩],
  [⟨"", "", "Relu", ["used"], ["y"]⟩], [⟨"y", "f32", []⟩, ⟨"keep", "f32", []⟩]⟩

/-- Witness for C7: at `stC7`/`gC7`, the never-consumed non-output
parameter 0 is pruned and uncached, while the never-consumed but
declared-output parameter 1 survives. -/
theorem removeDanglingParameters_spec_witness :
    0 ∉ (removeDanglingParameters gC7 stC7).parameters ∧
    cacheContains (removeDanglingParameters gC7 stC7).cache "dead" = false ∧
    1 ∈ (removeDanglingParameters gC7 stC7).parameters := by
  have h := removeDanglingParameters_spec gC7 stC7
  refine ⟨(h.2.2 0 (by decide) (by decide) (by decide)).1,
    (h.2.2 0 (by decide) (by decide) (by decide)).2,
    h.2.1 1 (by decide) (by decide)⟩

/-! ### C10 — result-node naming in `create_function` -/

theorem Env.inputs_setFriendly (e : Env) (i : Nat) (nm : String) (j : Nat) :
    ((e.setFriendly i nm).getNode j).inputs = (e.getNode j).inputs := by
  by_cases h : j = i
  · by_cases hl : i < e.nodes.length
    · rw [h, Env.getNode_setFriendly_self _ _ _ hl]
    · have hle := Nat.le_of_not_lt hl
      show ((Env.mk (e.nodes.set i _)).getNode j).inputs = _
      rw [List.set_eq_of_length_le hle]
  · rw [Env.getNode_setFriendly_ne _ _ _ _ h]

theorem renameResults_inputs (l : List (Nat × String)) :
    ∀ (env : Env) (j : Nat),
      ((renameResults env l).getNode j).inputs = (env.getNode j).inputs := by
  induction l with
  | nil => intro env j; rfl
  | cons p rest ih =>
    intro env j
    obtain ⟨rid, onm⟩ := p
    rw [renameResults, ih, Env.inputs_setFriendly]

theorem renameResults_length (l : List (Nat × String)) :
    ∀ env : Env, (renameResults env l).nodes.length = env.nodes.length := by
  induction l with
  | nil => intro env; rfl
  | cons p rest ih =>
    intro env
    obtain ⟨rid, onm⟩ := p
    rw [renameResults, ih]
    simp

theorem renameResults_friendly_untouched (l : List (Nat × String)) :
    ∀ (env : Env) (k : Nat), (∀ p ∈ l, p.1 ≠ k) →
      ((renameResults env l).getNode k).friendlyName = (env.getNode k).friendlyName := by
  induction l with
  | nil => intro env k _; rfl
  | cons p rest ih =>
    intro env k hk
    obtain ⟨rid, onm⟩ := p
    rw [renameResults, ih _ _ (fun q hq => hk q (List.mem_cons_of_mem _ hq)),
      Env.getNode_setFriendly_ne _ _ _ _ (Ne.symm (hk (rid, onm) (List.mem_cons_self _ _)))]

/-- The renaming loop of `create_function` gives each result node the
`generate_result_name` of its pair, computed against the input edges it
had when the loop started (renaming never changes edges). -/
theorem renameResults_friendly (l : List (Nat × String)) :
    ∀ (env : Env), (l.map Prod.fst).Nodup → (∀ p ∈ l, p.1 < env.nodes.length) →
      ∀ p ∈ l, ((renameResults env l).getNode p.1).friendlyName =
        p.2 ++ "/sink_port_" ++ toString ((env.getNode p.1).inputs.getD 0 default).port := by
  induction l with
  | nil => intro env _ _ p hp; cases hp
  | cons a rest ih =>
    intro env hnodup hbound p hp
    obtain ⟨rid, onm⟩ := a
    have hnotin : ∀ q ∈ rest, q.1 ≠ rid := by
      have h0 : rid ∉ rest.map Prod.fst := by
        simpa using (List.nodup_cons.mp hnodup).1
      intro q hq he
      refine h0 ?_
      rw [← he]
      exact List.mem_map_of_mem _ hq
    rcases List.mem_cons.mp hp with rfl | hmem
    · rw [renameResults,
        renameResults_friendly_untouched _ _ _ hnotin,
        Env.friendly_setFriendly_self _ _ _ (hbound _ (List.mem_cons_self _ _))]
      rfl
    · rw [renameResults]
      have hb' : ∀ q ∈ rest, q.1 < (env.setFriendly rid (generateResultName onm env rid)).nodes.length := by
        intro q hq
        simpa using hbound q (List.mem_cons_of_mem _ hq)
      have := ih _ (List.nodup_cons.mp hnodup).2 hb' p hmem
      rw [this, Env.inputs_setFriendly]

theorem getNgOutputs_length_le (st : GraphSt) :
    ∀ (l : List ValueInfoProto) (outs : List OutputRef),
      getNgOutputs st l = .ok outs → outs.length ≤ l.length := by
  intro l
  induction l with
  | nil =>
    intro outs h
    simp [getNgOutputs] at h
    subst h
    simp
  | cons o rest ih =>
    intro outs h
    rw [getNgOutputs] at h
    cases hl : cacheLookup st.cache o.name with
    | none => rw [hl] at h; simp at h
    | some ref =>
      rw [hl] at h
      cases hr : getNgOutputs st rest with
      | error e => rw [hr] at h; simp at h
      | ok rs =>
        rw [hr] at h
        simp at h
        have hle := ih rs hr
        rw [← h]
        split <;> simp <;> omega

/-- C10: in the function `create_function` builds, the i-th result
node's friendly name is the model's i-th declared output name,
`"/sink_port_"`, and the port index of the source output feeding that
result's only input. -/
theorem createFunction_result_names (g : GraphProto) (st : GraphSt)
    (env : Env) (fn : IRFunction)
    (hok : createFunction g st = .ok (env, fn)) :
    ∀ i, i < fn.results.length →
      (env.getNode (fn.results.getD i 0)).friendlyName =
        (g.output.getD i default).name ++ "/sink_port_" ++
          toString (((env.getNode (fn.results.getD i 0)).inputs.getD 0 default).port) := by
  rw [createFunction] at hok
  cases hout : getNgOutputs st g.output with
  | error e => rw [hout] at hok; simp at hok
  | ok outs =>
    rw [hout] at hok
    simp at hok
    obtain ⟨henv, hfn⟩ := hok
    intro i hi
    set base := st.env.nodes.length with hbase
    set rids := (List.range outs.length).map fun j => base + j with hrids
    set env1 : Env := ⟨st.env.nodes ++ outs.map mkResultNode⟩ with henv1
    set pairs := rids.zip (g.output.map ValueInfoProto.name) with hpairs
    have hridlen : rids.length = outs.length := by simp [hrids]
    have hole : outs.length ≤ g.output.length := getNgOutputs_length_le st g.output outs hout
    have hplen : pairs.length = outs.length := by
      simp [hpairs, hrids, List.length_zip]
      omega
    have hreslen : fn.results.length = outs.length := by
      rw [← hfn]
      exact hridlen
    have hi' : i < outs.length := hreslen ▸ hi
    have hresi : fn.results.getD i 0 = base + i := by
      rw [← hfn]
      show rids.getD i 0 = base + i
      rw [hrids]
      rw [List.getD_eq_getElem _ _ (by simpa using hi')]
      simp
    have hfst : pairs.map Prod.fst = rids := by
      rw [hpairs]
      exact List.map_fst_zip _ _ (by simpa [hridlen] using hole)
    have hnodup : (pairs.map Prod.fst).Nodup := by
      rw [hfst, hrids]
      exact (List.nodup_range _).map fun a b h => by omega
    have hb : ∀ p ∈ pairs, p.1 < env1.nodes.length := by
      intro p hp
      have h1 : p.1 ∈ rids := hfst ▸ List.mem_map_of_mem _ hp
      rw [hrids] at h1
      obtain ⟨j, hj, hpj⟩ := List.mem_map.mp h1
      have hjr := List.mem_range.mp hj
      have hlen1 : env1.nodes.length = base + outs.length := by
        simp [henv1, hbase]
      rw [hlen1]
      omega
    have hpairi : pairs.getD i default = (base + i, (g.output.getD i default).name) := by
      have hiz : i < pairs.length := hplen ▸ hi'
      rw [List.getD_eq_getElem _ _ hiz]
      simp only [hpairs, List.getElem_zip, Prod.mk.injEq]
      refine ⟨?_, ?_⟩
      · simp [hrids]
      · rw [List.getElem_map, ← List.getD_eq_getElem g.output default (by omega)]
    have hpmem : pairs.getD i default ∈ pairs := by
      have hiz : i < pairs.length := hplen ▸ hi'
      rw [List.getD_eq_getElem _ _ hiz]
      exact List.getElem_mem _
    have hmain := renameResults_friendly pairs env1 hnodup hb _ hpmem
    rw [hpairi] at hmain
    rw [← henv, hresi]
    show ((renameResults env1 pairs).getNode (base + i)).friendlyName = _
    rw [hmain, renameResults_inputs]

/-- The state for the C10 witness: one node with two output ports,
both bound as declared outputs. -/
def stC10 : GraphSt :=
  ⟨⟨[⟨.opNode "TopK", "t", [], [⟨"f32", [], ["o1"], ""⟩, ⟨"f32", [], ["o2"], ""⟩]⟩]⟩,
   [("o1", ⟨0, 0⟩), ("o2", ⟨0, 1⟩)], [], [], []⟩

/-- The model for the C10 witness: two declared outputs. -/
def gC10 : GraphProto := ⟨[], [], [], [⟨"o1", "f32", []⟩, ⟨"o2", "f32", []⟩]⟩

/-- Witness for C10: both results of `createFunction` carry the
declared output name suffixed with the feeding port index. -/
theorem createFunction_result_names_witness :
    ∃ env fn, createFunction gC10 stC10 = .ok (env, fn) ∧
      (env.getNode (fn.results.getD 0 0)).friendlyName = "o1/sink_port_0" ∧
      (env.getNode (fn.results.getD 1 0)).friendlyName = "o2/sink_port_1" := by
  refine ⟨_, _, rfl, ?_, ?_⟩
  · exact createFunction_result_names gC10 stC10 _ _ rfl 0 (by decide)
  · exact createFunction_result_names gC10 stC10 _ _ rfl 1 (by decide)

/-! ### C5 — subgraph input lifting -/

/-- The parent heap for C5: one producer op node whose output 0 is the
parent value `x`, of element type `t` and partial shape `s`. -/
def envC5 (op0 : String) (t : ElemType) (s : List (Option Nat)) : Env :=
  ⟨[⟨.opNode op0, "px", [], [⟨t, s, ["x"], ""⟩]⟩]⟩

/-- The C5 subgraph body: a single node consuming `x` by name as its
explicit input and producing `y`, which is the body's declared
output. -/
def bodyC5 : GraphProto := ⟨[], [], [⟨"", "", "CustomOp", ["x"], ["y"]⟩], [⟨"y", "f32", []⟩]⟩

/-- The conversion function for C5's node: it resolves `x` through the
subgraph's scope chain to the parent's output `⟨0, 0⟩` and builds one
op node reading it directly. -/
def factoryC5 (t2 : ElemType) (s2 : List (Option Nat)) : Factory := fun _ st =>
  .ok ((st.env.addNode ⟨.opNode "CustomOp", "", [⟨0, 0⟩], [⟨t2, s2, [], ""⟩]⟩).1)
    [⟨st.env.nodes.length, 0⟩]

/-- The subgraph's starting state for C5: it shares the parent's node
heap and has an empty local cache (the body declares no initializers
and no inputs). -/
def stC5 (op0 : String) (t : ElemType) (s : List (Option Nat)) : SubgraphSt :=
  ⟨⟨envC5 op0 t s, [], [], [], []⟩, [], []⟩

set_option maxHeartbeats 1000000 in
/-- C5: for a parent producing the non-constant value `x` and a nested
body whose single node consumes `x` explicitly, `Subgraph::convert`
leaves exactly one parameter (node 2) standing in for `x`: it copies
the parent value's element type and partial shape, is cached locally
under `"x"`, is recorded in the parameter→parent-name map, and the
consuming node's input edge points at the parameter's output `⟨2, 0⟩`
instead of the parent-scope output `⟨0, 0⟩`. -/
theorem subgraph_convert_lifts_parent_input
    (op0 : String) (t t2 : ElemType) (s s2 : List (Option Nat)) :
    ∃ stF fn,
      Subgraph.convert [("x", ⟨0, 0⟩)] (factoryC5 t2 s2) bodyC5 (stC5 op0 t s) =
        .ok (stF, fn) ∧
      stF.g.parameters = [2] ∧
      (stF.g.env.getNode 2).kind = .parameter ∧
      stF.g.env.outElemType ⟨2, 0⟩ = t ∧
      stF.g.env.outPShape ⟨2, 0⟩ = s ∧
      cacheLookup stF.g.cache "x" = some ⟨2, 0⟩ ∧
      stF.parameterToParentNodeMap = [(2, "x")] ∧
      stF.inputsFromParent = ["x"] ∧
      (stF.g.env.getNode 1).inputs = [⟨2, 0⟩] ∧
      (⟨2, 0⟩ : OutputRef) ≠ ⟨0, 0⟩ ∧
      fn.parameters = [2] :=
  ⟨⟨⟨⟨[⟨.opNode op0, "px", [], [⟨t, s, ["x"], ""⟩]⟩,
      ⟨.opNode "CustomOp", "y", [⟨2, 0⟩], [⟨t2, s2, ["y"], ""⟩]⟩,
      ⟨.parameter, "", [], [⟨t, s, [], ""⟩]⟩,
      ⟨.result, "y" ++ "/sink_port_" ++ toString 0, [⟨1, 0⟩], [⟨"", [], [], ""⟩]⟩]⟩,
     [("x", ⟨2, 0⟩), ("y", ⟨1, 0⟩)], [2], [], []⟩,
    [(2, "x")], ["x"]⟩,
   ⟨[3], [2]⟩,
   rfl, rfl, rfl, rfl, rfl, rfl, rfl, rfl, rfl, by decide, rfl⟩

end OnnxImport
